import Mathlib

/-!
# Genesis block construction of `CanonBlockChain` (libethereum)

A shallow embedding of `libethereum/CanonBlockChain.h`:

* the generic `CanonBlockChain<Sealer>::createGenesisBlock()`, a chain of
  `RLPStream` calls, translated call by call;
* the static override fields of the `CanonBlockChain<Ethash>` specialisation
  with `isNonStandard()`.

`RLPStream`, the fixed-size hash types and the constant `RLPEmptyList` belong
to libdevcore and are only used by the header. They are modelled here, member
function by member function, as the writer of the length-prefixed list format
the genesis bytes are in; the hash constants `EmptyListSHA3` and `EmptyTrie`
are parameters. A second, independent description of the format (`rlpData`,
`rlpList`, `rlpEncode` and the reader `rlpSplit`) is what the results are
stated in.

Machine integers are natural numbers and a `(byte)` cast is `% 256`. A C++
vector holds fewer than `2 ^ 64` bytes; results about bytes that are returned
assume `sealFieldsRLP.length + 512 < 2 ^ 64`, which keeps every length the
stream writes within `size_t`.
-/

namespace dev

/-! ## Bytes and integers -/

/-- The type `bytes` of libdevcore, `std::vector<byte>`. An octet is a natural
number; the value of a `(byte)` cast is taken `% 256` where the cast is made. -/
abbrev bytes := List Nat

/-- The type `u256`; the genesis code only stores and tests such values. -/
abbrev u256 := Nat

/-- Modelled from the spec: `FixedHash<N>` of libdevcore/FixedHash.h (not under src/),
a byte array of exactly `N` bytes ("fixed-width" hash, address and bloom fields). -/
structure FixedHash (N : Nat) where
  data : bytes
  size_eq : data.length = N
deriving DecidableEq

/-- Modelled from the spec: the default constructor of `FixedHash<N>` gives the
all-zero value ("parent hash (zero for genesis)", "log bloom filter (all-zero)"). -/
def FixedHash.zero (N : Nat) : FixedHash N := ⟨List.replicate N 0, List.length_replicate N 0⟩

/-- The type `h256`, a 32-byte hash. -/
abbrev h256 := FixedHash 32

/-- The type `h160`, a 20-byte address. -/
abbrev h160 := FixedHash 20

/-- The type `h64`, the 8 bytes of a `Nonce`. -/
abbrev h64 := FixedHash 8

/-- The type `LogBloom` is `h2048`, 256 bytes. -/
abbrev LogBloom := FixedHash 256

/-- Modelled from the spec: the loop of `bytesRequired`,
`for (; _i != 0; ++i, _i >>= 8) {}`, with a bound on its iterations. -/
def bytesRequiredLoop : Nat → Nat → Nat
  | 0, _ => 0
  | fuel + 1, i => if i = 0 then 0 else 1 + bytesRequiredLoop fuel (i / 256)

/-- Modelled from the spec: `bytesRequired` of libdevcore/CommonData.h (not under src/):
the number of bytes of the minimal big-endian representation. The loop runs at
most `_i` times, which is the bound given to it. -/
def bytesRequired (i : Nat) : Nat := bytesRequiredLoop i i

/-- Modelled from the spec: the bytes written by `RLPStream::pushInt(_i, _br)`
(not under src/): `_br` bytes, filled from the last one backwards with the low
byte of `_i`, `_i >>= 8`; the "big-endian byte representation". -/
def bigEndian : Nat → Nat → bytes
  | _, 0 => []
  | i, br + 1 => bigEndian (i / 256) br ++ [i % 256]

/-! ## RLPStream -/

/-- Modelled from the spec: the `RLPException`s that `RLPStream` throws (not
under src/), told apart by their `errinfo_comment`. -/
inductive RLPException where
  /-- The comment "itemCount too large", with its `RequirementError(have, want)`. -/
  | itemCountTooLarge (listCount itemCount : Nat)
  /-- The comment "itemCount too large for RLP". -/
  | itemCountTooLargeForRLP
  /-- The comment "Count too large for RLP". -/
  | countTooLargeForRLP
  /-- The comment "Number too large for RLP". -/
  | numberTooLargeForRLP
  /-- The comment "listStack is not empty". -/
  | listStackNotEmpty
deriving DecidableEq, Repr

deriving instance DecidableEq for Except

/-- Modelled from the spec: constant of libdevcore/RLP.h (not under src/), the
most bytes a length takes. -/
def c_rlpMaxLengthBytes : Nat := 8

/-- Modelled from the spec: constant of libdevcore/RLP.h, the first byte of a
byte string of length zero. -/
def c_rlpDataImmLenStart : Nat := 0x80

/-- Modelled from the spec: constant of libdevcore/RLP.h, the first byte of a
list of length zero. -/
def c_rlpListStart : Nat := 0xc0

/-- Modelled from the spec: constant of libdevcore/RLP.h, 56: byte strings
shorter than this have their length in the first byte. -/
def c_rlpDataImmLenCount : Nat := c_rlpListStart - c_rlpDataImmLenStart - c_rlpMaxLengthBytes

/-- Modelled from the spec: constant of libdevcore/RLP.h, 0xb7. -/
def c_rlpDataIndLenZero : Nat := c_rlpDataImmLenStart + c_rlpDataImmLenCount - 1

/-- Modelled from the spec: constant of libdevcore/RLP.h, 56: lists shorter
than this have their length in the first byte. -/
def c_rlpListImmLenCount : Nat := 256 - c_rlpListStart - c_rlpMaxLengthBytes

/-- Modelled from the spec: constant of libdevcore/RLP.h, 0xf7. -/
def c_rlpListIndLenZero : Nat := c_rlpListStart + c_rlpListImmLenCount - 1

/-- Modelled from the spec: class `RLPStream` of libdevcore/RLP.h (not under src/),
the writer of the "length-prefixed nested list" format. `m_out` is the output so
far; `m_listStack` holds, innermost list first (the head is `back()`), the
number of items each open list still expects and the offset in `m_out` where
the list began. -/
structure RLPStream where
  m_out : bytes
  m_listStack : List (Nat × Nat)
deriving DecidableEq, Repr

namespace RLPStream

/-- Modelled from the spec: the stream made by `RLPStream()`, nothing written
and no list open. -/
def empty : RLPStream := ⟨[], []⟩

/-- Modelled from the spec: the `while` loop of `RLPStream::noteAppended` over
the list stack. The innermost open list takes `itemCount` items, more than it
has left is "itemCount too large"; a list that has all its items is closed,
its length header is inserted in front of its payload and it counts as one
item of the list around it. -/
def noteAppendedLoop (out : bytes) : List (Nat × Nat) → Nat → Except RLPException RLPStream
  | [], _ => .ok ⟨out, []⟩
  | (first, second) :: rest, itemCount =>
    if first < itemCount then
      .error (.itemCountTooLarge first itemCount)
    else if first - itemCount ≠ 0 then
      .ok ⟨out, (first - itemCount, second) :: rest⟩
    else
      let s := out.length - second
      let brs := bytesRequired s
      if s < c_rlpListImmLenCount then
        noteAppendedLoop (out.take second ++ [(c_rlpListStart + s) % 256] ++ out.drop second) rest 1
      else if c_rlpListIndLenZero + brs ≤ 0xff then
        noteAppendedLoop
          (out.take second ++ [(c_rlpListIndLenZero + brs) % 256] ++ bigEndian s brs
            ++ out.drop second) rest 1
      else
        .error .itemCountTooLargeForRLP

/-- Modelled from the spec: `RLPStream::noteAppended(_itemCount)`, which
returns at once for `_itemCount = 0`. -/
def noteAppended (s : RLPStream) (itemCount : Nat) : Except RLPException RLPStream :=
  if itemCount = 0 then .ok s else noteAppendedLoop s.m_out s.m_listStack itemCount

/-- Modelled from the spec: `RLPStream::appendRaw(_rlp, _itemCount)`, which
copies "raw encoded" bytes and notes them as `_itemCount` items. -/
def appendRaw (s : RLPStream) (rlp : bytes) (itemCount : Nat) : Except RLPException RLPStream :=
  noteAppended { s with m_out := s.m_out ++ rlp } itemCount

/-- Modelled from the spec: `RLPStream::pushCount(_count, _base)`, the header
of an item of 56 bytes or more. -/
def pushCount (s : RLPStream) (count base : Nat) : Except RLPException RLPStream :=
  let br := bytesRequired count
  if br + base > 0xff then .error .countTooLargeForRLP
  else .ok { s with m_out := s.m_out ++ [(br + base) % 256] ++ bigEndian count br }

/-- Modelled from the spec: `RLPStream::appendList(bytesConstRef _rlp)`, a
whole list given by its payload. -/
def appendListBytes (s : RLPStream) (rlp : bytes) : Except RLPException RLPStream := do
  let s1 ← if rlp.length < c_rlpListImmLenCount then
      pure { s with m_out := s.m_out ++ [(rlp.length + c_rlpListStart) % 256] }
    else pushCount s rlp.length c_rlpListIndLenZero
  appendRaw s1 rlp 1

/-- Modelled from the spec: `RLPStream::appendList(size_t _items)`, which opens
a list of `_items` items, or writes the empty list for `_items = 0`. -/
def appendList (s : RLPStream) (items : Nat) : Except RLPException RLPStream :=
  if items ≠ 0 then .ok { s with m_listStack := (items, s.m_out.length) :: s.m_listStack }
  else appendListBytes s []

/-- Modelled from the spec: the constructor `RLPStream(size_t _listItems)`,
`appendList(_listItems)` on the empty stream. -/
def ofListItems (listItems : Nat) : Except RLPException RLPStream := appendList empty listItems

/-- Modelled from the spec: `RLPStream::append(bytesConstRef _s, bool _compact)`
at `_compact = false`, the only way the genesis code calls it. -/
def appendBytes (s : RLPStream) (d : bytes) : Except RLPException RLPStream := do
  let s1 ← if d.length = 1 ∧ d.headD 0 < c_rlpDataImmLenStart then
      pure { s with m_out := s.m_out ++ [d.headD 0] }
    else do
      let s0 ← if d.length < c_rlpDataImmLenCount then
          pure { s with m_out := s.m_out ++ [(d.length + c_rlpDataImmLenStart) % 256] }
        else pushCount s d.length c_rlpDataIndLenZero
      appendRaw s0 d 0
  noteAppended s1 1

/-- Modelled from the spec: `RLPStream::append(bigint _i)`, the "minimal-length
big-endian" encoding of a number. -/
def appendBigint (s : RLPStream) (i : Nat) : Except RLPException RLPStream := do
  let s1 ← if i = 0 then pure { s with m_out := s.m_out ++ [c_rlpDataImmLenStart] }
    else if i < c_rlpDataImmLenStart then pure { s with m_out := s.m_out ++ [i % 256] }
    else
      let br := bytesRequired i
      if br < c_rlpDataImmLenCount then
        pure { s with m_out := s.m_out ++ [(br + c_rlpDataImmLenStart) % 256] ++ bigEndian i br }
      else
        let brbr := bytesRequired br
        if c_rlpDataIndLenZero + brbr > 0xff then throw .numberTooLargeForRLP
        else
          pure { s with m_out := s.m_out ++ [(c_rlpDataIndLenZero + brbr) % 256]
                                  ++ bigEndian br brbr ++ bigEndian i br }
  noteAppended s1 1

/-- Modelled from the spec: the overload `append(unsigned _s)`, which is
`append(bigint(_s))`; it also receives the `int` literals of the genesis code. -/
def appendUnsigned (s : RLPStream) (v : Nat) : Except RLPException RLPStream :=
  appendBigint s (v % 2 ^ 32)

/-- Modelled from the spec: the overload `append(u256 _s)`, which is
`append(bigint(_s))`. -/
def appendU256 (s : RLPStream) (v : u256) : Except RLPException RLPStream :=
  appendBigint s (v % 2 ^ 256)

/-- Modelled from the spec: the overload
`append(FixedHash<N> _s, _compact = false, _allOrNothing = false)`, which is
`append(_s.ref(), false)`: all `N` bytes are written. -/
def appendFixedHash {N : Nat} (s : RLPStream) (h : FixedHash N) : Except RLPException RLPStream :=
  appendBytes s h.data

/-- Modelled from the spec: the overload `append(std::string const& _s)`, the
bytes of the string. -/
def appendString (s : RLPStream) (str : bytes) : Except RLPException RLPStream :=
  appendBytes s str

/-- Modelled from the spec: `RLPStream::out()`, which throws "listStack is not
empty" while a list is open. -/
def out (s : RLPStream) : Except RLPException bytes :=
  if s.m_listStack ≠ [] then .error .listStackNotEmpty else .ok s.m_out

end RLPStream

/-- Modelled from the spec: the constant `RLPEmptyList` of libdevcore/RLP.h (not
under src/), the encoding of the empty list, the one byte 0xC0. -/
def RLPEmptyList : bytes := [0xc0]

/-! ## The sealer and the generic genesis block -/

/-- What `createGenesisBlock` reads of its template parameter `Sealer`: the
constants `BlockHeader::Fields` and `BlockHeader::SealFields` and the bytes
returned by `BlockHeader().sealFieldsRLP()`, which the code hands to the
stream as `SealFields` items. -/
structure Sealer where
  Fields : Nat
  SealFields : Nat
  sealFieldsRLP : bytes
deriving DecidableEq, Repr

/-- The two hash constants the genesis code writes, `EmptyListSHA3` (hash of
the empty list) and `EmptyTrie` (root of the empty trie), both `h256`. Their
values are not under src/; they are parameters, any two 32-byte values. -/
structure HashConstants where
  EmptyListSHA3 : h256
  EmptyTrie : h256
deriving DecidableEq

namespace CanonBlockChain

/-- The first two statements of `createGenesisBlock`: `RLPStream block(3);` and
`block.appendList(Fields) << h256() << EmptyListSHA3 << h160() << EmptyTrie
<< EmptyTrie << EmptyTrie << LogBloom() << 1 << 0 << (u256(1) << 255) << 0
<< (unsigned)0 << std::string();`. -/
def headerStream (c : HashConstants) (S : Sealer) : Except RLPException RLPStream := do
  let block ← RLPStream.ofListItems 3
  let block ← block.appendList S.Fields
  let block ← block.appendFixedHash (FixedHash.zero 32 : h256)
  let block ← block.appendFixedHash c.EmptyListSHA3
  let block ← block.appendFixedHash (FixedHash.zero 20 : h160)
  let block ← block.appendFixedHash c.EmptyTrie
  let block ← block.appendFixedHash c.EmptyTrie
  let block ← block.appendFixedHash c.EmptyTrie
  let block ← block.appendFixedHash (FixedHash.zero 256 : LogBloom)
  let block ← block.appendUnsigned 1
  let block ← block.appendUnsigned 0
  let block ← block.appendU256 (1 <<< 255)
  let block ← block.appendUnsigned 0
  let block ← block.appendUnsigned 0
  block.appendString []

/-- The generic `CanonBlockChain<Sealer>::createGenesisBlock()`: the header
stream, then `appendRaw(sealFields, SealFields)`, twice `appendRaw(RLPEmptyList)`
and `out()`. -/
def createGenesisBlock (c : HashConstants) (S : Sealer) : Except RLPException bytes := do
  let block ← headerStream c S
  let sealFields := S.sealFieldsRLP
  let block ← block.appendRaw sealFields S.SealFields
  let block ← block.appendRaw RLPEmptyList 1
  let block ← block.appendRaw RLPEmptyList 1
  block.out

end CanonBlockChain

/-! ## The static genesis fields of `CanonBlockChain<Ethash>` -/

/-- The static data members of the specialisation `CanonBlockChain<Ethash>`
(the lock `x_genesis` apart). The memoised header `s_genesis` is kept as the
bytes it was made of, `none` for the null pointer. -/
structure GenesisStatics where
  s_genesis : Option bytes
  s_nonce : h64
  s_genesisStateJSON : String
  s_genesisExtraData : bytes
  s_genesisDifficulty : u256
  s_genesisGasLimit : u256
deriving DecidableEq

namespace GenesisStatics

/-- Modelled from the spec: the definitions of the static members are in
CanonBlockChain.cpp (not under src/); "each defaulting to unset until explicitly
forced": null header, empty strings, zero numbers. The value `s_nonce` starts
with is not an override and is left open. -/
def fresh (nonce : h64) : GenesisStatics :=
  { s_genesis := none
    s_nonce := nonce
    s_genesisStateJSON := ""
    s_genesisExtraData := []
    s_genesisDifficulty := 0
    s_genesisGasLimit := 0 }

/-- The function `CanonBlockChain<Ethash>::isNonStandard()`:
`s_genesisExtraData.size() || s_genesisDifficulty || s_genesisGasLimit`. -/
def isNonStandard (σ : GenesisStatics) : Bool :=
  (σ.s_genesisExtraData.length != 0) || (σ.s_genesisDifficulty != 0) || (σ.s_genesisGasLimit != 0)

/-- Modelled from the spec: `setGenesis` is only declared under src/;
"replacing the corresponding field", here the account description. -/
def setGenesis (σ : GenesisStatics) (genesisInfoJSON : String) : GenesisStatics :=
  { σ with s_genesisStateJSON := genesisInfoJSON }

/-- Modelled from the spec: `forceGenesisExtraData` is only declared under src/;
"replacing the corresponding field". -/
def forceGenesisExtraData (σ : GenesisStatics) (genesisExtraData : bytes) : GenesisStatics :=
  { σ with s_genesisExtraData := genesisExtraData }

/-- Modelled from the spec: `forceGenesisDifficulty` is only declared under src/;
"replacing the corresponding field". -/
def forceGenesisDifficulty (σ : GenesisStatics) (genesisDifficulty : u256) : GenesisStatics :=
  { σ with s_genesisDifficulty := genesisDifficulty }

/-- Modelled from the spec: `forceGenesisGasLimit` is only declared under src/;
"replacing the corresponding field". -/
def forceGenesisGasLimit (σ : GenesisStatics) (genesisGasLimit : u256) : GenesisStatics :=
  { σ with s_genesisGasLimit := genesisGasLimit }

end GenesisStatics

/-- A call of the generic `createGenesisBlock()` in a process whose static
genesis fields are `σ`: the function is a static member of the generic
template, which has no data member; it returns the bytes and leaves `σ`. -/
def CanonBlockChain.callCreateGenesisBlock (c : HashConstants) (S : Sealer) (σ : GenesisStatics) :
    Except RLPException bytes × GenesisStatics :=
  (CanonBlockChain.createGenesisBlock c S, σ)

/-! ## The encoding the genesis bytes are written in, as the specification has it -/

/-- The minimal big-endian byte string of a number: its base-256 digits, most
significant first, none for zero (so no leading zero byte). -/
def minimalBigEndian (n : Nat) : bytes := (Nat.digits 256 n).reverse

/-- The number a big-endian byte string stands for. -/
def fromBigEndian (bs : bytes) : Nat := bs.foldl (fun acc b => acc * 256 + b) 0

/-- The length header of an item of `len` payload bytes: one byte `offset + len`
below 56 bytes, else the byte `offset + 55 + k` and the `k` bytes of `len`. -/
def rlpLength (len offset : Nat) : bytes :=
  if len < 56 then [offset + len]
  else (offset + 55 + (minimalBigEndian len).length) :: minimalBigEndian len

/-- The encoding of a byte string: a single byte below 0x80 is itself, any other
string follows its length header. -/
def rlpData (d : bytes) : bytes :=
  if d.length = 1 ∧ d.headD 0 < 0x80 then d else rlpLength d.length 0x80 ++ d

/-- The encoding of a number: that of its minimal big-endian byte string. -/
def rlpInt (n : Nat) : bytes := rlpData (minimalBigEndian n)

/-- The encoding of a list whose items, encoded and concatenated, are `payload`. -/
def rlpList (payload : bytes) : bytes := rlpLength payload.length 0xc0 ++ payload

/-- An item of the format: a byte string or a list of items. -/
inductive RLPItem where
  | data (d : bytes)
  | list (items : List RLPItem)

mutual
/-- The encoding of an item. -/
def rlpEncode : RLPItem → bytes
  | .data d => rlpData d
  | .list items => rlpList (rlpEncodeAll items)
/-- The encodings of the items of a list, concatenated. -/
def rlpEncodeAll : List RLPItem → bytes
  | [] => []
  | x :: xs => rlpEncode x ++ rlpEncodeAll xs
end

/-- The sizes of the header and of the payload of the item that begins `b`,
read off its first bytes. -/
def rlpItemSize : bytes → Option (Nat × Nat)
  | [] => none
  | b :: rest =>
    if b < 0x80 then some (0, 1)
    else if b < 0xb8 then some (1, b - 0x80)
    else if b < 0xc0 then
      if rest.length < b - 0xb7 then none
      else some (1 + (b - 0xb7), fromBigEndian (rest.take (b - 0xb7)))
    else if b < 0xf8 then some (1, b - 0xc0)
    else if rest.length < b - 0xf7 then none
    else some (1 + (b - 0xf7), fromBigEndian (rest.take (b - 0xf7)))

/-- The first item of `b` and what follows it. -/
def rlpSplit (b : bytes) : Option (bytes × bytes) :=
  match rlpItemSize b with
  | none => none
  | some (h, n) => if b.length < h + n then none else some (b.take (h + n), b.drop (h + n))

/-- The first `k` items of `b`. -/
def rlpItems : Nat → bytes → Option (List bytes)
  | 0, _ => some []
  | k + 1, b =>
    match rlpSplit b with
    | none => none
    | some (x, rest) => (rlpItems k rest).map (x :: ·)

/-- All the items of `b`, which has to end with the last of them; `fuel` bounds
their number. -/
def rlpSplitAll : Nat → bytes → Option (List bytes)
  | _, [] => some []
  | 0, _ :: _ => none
  | fuel + 1, b =>
    match rlpSplit b with
    | none => none
    | some (x, rest) => (rlpSplitAll fuel rest).map (x :: ·)

/-- Whether the item `x` is a list. -/
def rlpIsList (x : bytes) : Bool := 0xc0 ≤ x.headD 0

/-- The payload of `x`, when `x` is one whole item. -/
def rlpPayload (x : bytes) : Option bytes :=
  match rlpItemSize x with
  | none => none
  | some (h, n) => if x.length = h + n then some (x.drop h) else none

/-- The items of a list `x`. -/
def rlpListItems (x : bytes) : Option (List bytes) :=
  if rlpIsList x then (rlpPayload x).bind (fun p => rlpSplitAll p.length p) else none

/-- The payload of the header list of a block, the first item of the block list. -/
def blockHeaderPayload (block : bytes) : Option bytes :=
  if rlpIsList block then
    (rlpPayload block).bind fun p => (rlpSplit p).bind fun hr =>
      if rlpIsList hr.1 then rlpPayload hr.1 else none
  else none

/-- The encoded field number `i` (from 0) of the header of a block. -/
def headerField (block : bytes) (i : Nat) : Option bytes :=
  (blockHeaderPayload block).bind fun hp => (rlpItems (i + 1) hp).bind fun xs => xs[i]?

/-- The byte string held by field `i` of the header of a block. -/
def headerFieldData (block : bytes) (i : Nat) : Option bytes :=
  (headerField block i).bind fun x => if rlpIsList x then none else rlpPayload x

/-- The number held by field `i` of the header of a block. -/
def headerFieldInt (block : bytes) (i : Nat) : Option Nat :=
  (headerFieldData block i).map fromBigEndian

/-! ## The run of `createGenesisBlock` as a sequence of raw appends -/

/-- A sequence of `appendRaw(rlp, itemCount)` calls on a stream, stopping at
the first exception. -/
def RLPStream.appendRaws : RLPStream → List (bytes × Nat) → Except RLPException RLPStream
  | s, [] => .ok s
  | s, (rlp, itemCount) :: rest =>
    match s.appendRaw rlp itemCount with
    | .error e => .error e
    | .ok s1 => appendRaws s1 rest

/-- The values that `createGenesisBlock` streams after `appendList(Fields)`, in
the order of the `<<` chain, numbers as their minimal big-endian byte strings. -/
def CanonBlockChain.genericFields (c : HashConstants) : List RLPItem :=
  [ .data (FixedHash.zero 32).data, .data c.EmptyListSHA3.data, .data (FixedHash.zero 20).data,
    .data c.EmptyTrie.data, .data c.EmptyTrie.data, .data c.EmptyTrie.data,
    .data (FixedHash.zero 256).data,
    .data (minimalBigEndian 1), .data (minimalBigEndian 0), .data (minimalBigEndian (2 ^ 255)),
    .data (minimalBigEndian 0), .data (minimalBigEndian 0), .data [] ]

/-- The raw appends `createGenesisBlock` makes after opening the header list. -/
def CanonBlockChain.genesisAppends (c : HashConstants) (S : Sealer) : List (bytes × Nat) :=
  (CanonBlockChain.genericFields c).map (fun x => (rlpEncode x, 1))
    ++ [(S.sealFieldsRLP, S.SealFields), (RLPEmptyList, 1), (RLPEmptyList, 1)]

/-! ## Concrete inputs -/

/-- The values the two hash constants have in cpp-ethereum, the Keccak-256
hashes of the byte 0xC0 and of the byte 0x80; an input for evaluation. -/
def sampleConstants : HashConstants :=
  { EmptyListSHA3 :=
      ⟨[0x1d, 0xcc, 0x4d, 0xe8, 0xde, 0xc7, 0x5d, 0x7a, 0xab, 0x85, 0xb5, 0x67, 0xb6, 0xcc, 0xd4,
        0x1a, 0xd3, 0x12, 0x45, 0x1b, 0x94, 0x8a, 0x74, 0x13, 0xf0, 0xa1, 0x42, 0xfd, 0x40, 0xd4,
        0x93, 0x47], rfl⟩
    EmptyTrie :=
      ⟨[0x56, 0xe8, 0x1f, 0x17, 0x1b, 0xcc, 0x55, 0xa6, 0xff, 0x83, 0x45, 0xe6, 0x92, 0xc0, 0xf8,
        0x6e, 0x5b, 0x48, 0xe0, 0x1b, 0x99, 0x6c, 0xad, 0xc0, 0x01, 0x62, 0x2f, 0xb5, 0xe3, 0x63,
        0xb4, 0x21], rfl⟩ }

/-- The two seal fields of a proof-of-work header at their default values, a
32-byte mix hash and an 8-byte nonce, both zero, as `sealFieldsRLP()` returns
them. -/
def sampleSealFields : bytes := 0xa0 :: List.replicate 32 0 ++ 0x88 :: List.replicate 8 0

/-- A consistent sealer with two seal fields: `Fields = 13 + 2`. -/
def sampleSealer : Sealer := ⟨15, 2, sampleSealFields⟩

/-- A sealer with two seal fields whose header declares one field too few. -/
def shortHeaderSealer : Sealer := ⟨14, 2, sampleSealFields⟩

/-- The static genesis fields after `forceGenesisExtraData({0x42})`,
`forceGenesisDifficulty(5)` and `forceGenesisGasLimit(7)`. -/
def forcedStatics (nonce : h64) : GenesisStatics :=
  (((GenesisStatics.fresh nonce).forceGenesisExtraData [0x42]).forceGenesisDifficulty 5).forceGenesisGasLimit 7

/-! # Properties

## Exceptions and byte strings of numbers -/

open CanonBlockChain

theorem Except.ok_bind {ε α β : Type} (x : α) (f : α → Except ε β) :
    (Except.ok x >>= f) = f x := by
  simp only [bind, Except.bind]

theorem Except.error_bind {ε α β : Type} (e : ε) (f : α → Except ε β) :
    ((Except.error e : Except ε α) >>= f) = Except.error e := by
  simp only [bind, Except.bind]

/-- The loop of `bytesRequired` counts the base-256 digits. -/
theorem bytesRequiredLoop_eq (fuel : Nat) : ∀ i, i ≤ fuel →
    bytesRequiredLoop fuel i = (Nat.digits 256 i).length := by
  induction fuel with
  | zero =>
    intro i hi
    have : i = 0 := by omega
    subst this
    simp [bytesRequiredLoop]
  | succ fuel ih =>
    intro i hi
    by_cases h0 : i = 0
    · subst h0; simp [bytesRequiredLoop]
    · have hpos : 0 < i := Nat.pos_of_ne_zero h0
      have hdiv : i / 256 ≤ fuel := by omega
      rw [bytesRequiredLoop, if_neg h0, ih _ hdiv, Nat.digits_def' (by norm_num) hpos]
      simp [Nat.add_comm]

theorem bytesRequired_eq (i : Nat) : bytesRequired i = (minimalBigEndian i).length := by
  simp [bytesRequired, minimalBigEndian, bytesRequiredLoop_eq i i (Nat.le_refl i)]

theorem bigEndian_digits (i : Nat) :
    bigEndian i (Nat.digits 256 i).length = minimalBigEndian i := by
  induction i using Nat.strong_induction_on with
  | _ i ih =>
    by_cases h0 : i = 0
    · subst h0; simp [bigEndian, minimalBigEndian]
    · have hpos : 0 < i := Nat.pos_of_ne_zero h0
      have hlt : i / 256 < i := Nat.div_lt_self hpos (by norm_num)
      have := ih _ hlt
      rw [minimalBigEndian, Nat.digits_def' (by norm_num) hpos]
      simp [bigEndian, this, minimalBigEndian]

/-- What `pushInt(_i, bytesRequired(_i))` writes is the minimal big-endian byte
string of `_i`. -/
theorem bigEndian_bytesRequired (i : Nat) : bigEndian i (bytesRequired i) = minimalBigEndian i := by
  rw [bytesRequired_eq, minimalBigEndian, List.length_reverse, bigEndian_digits]
  rfl

theorem fromBigEndian_reverse (l : List Nat) : fromBigEndian l.reverse = Nat.ofDigits 256 l := by
  induction l with
  | nil => simp [fromBigEndian]
  | cons a l ih =>
    simp only [fromBigEndian] at ih
    simp [fromBigEndian, List.foldl_append, ih, Nat.ofDigits_cons]
    ring

/-- The minimal big-endian byte string of a number stands for that number. -/
theorem fromBigEndian_minimalBigEndian (n : Nat) : fromBigEndian (minimalBigEndian n) = n := by
  rw [minimalBigEndian, fromBigEndian_reverse, Nat.ofDigits_digits]

theorem minimalBigEndian_length_le (k : Nat) : ∀ n, n < 256 ^ k →
    (minimalBigEndian n).length ≤ k := by
  induction k with
  | zero =>
    intro n h
    have : n = 0 := by simpa using h
    subst this
    simp [minimalBigEndian]
  | succ k ih =>
    intro n h
    by_cases h0 : n = 0
    · subst h0; simp [minimalBigEndian]
    · have hpos : 0 < n := Nat.pos_of_ne_zero h0
      have hdiv : n / 256 < 256 ^ k := by
        rw [Nat.div_lt_iff_lt_mul (by norm_num)]
        rw [pow_succ] at h
        exact h
      have := ih _ hdiv
      rw [minimalBigEndian, List.length_reverse] at this ⊢
      rw [Nat.digits_def' (by norm_num) hpos]
      simpa using this

theorem minimalBigEndian_length_pos (n : Nat) (h : 0 < n) : 0 < (minimalBigEndian n).length := by
  rw [minimalBigEndian, List.length_reverse, Nat.digits_def' (by norm_num) h]
  simp

/-! ## What the stream writes is the encoding -/

namespace RLPStream

/-- An open list that is given fewer items than it has left stays open. -/
theorem noteAppendedLoop_open (out : bytes) (first second itemCount : Nat)
    (rest : List (Nat × Nat)) (h : itemCount < first) :
    noteAppendedLoop out ((first, second) :: rest) itemCount
      = .ok ⟨out, (first - itemCount, second) :: rest⟩ := by
  have h1 : ¬ first < itemCount := by omega
  have h2 : first - itemCount ≠ 0 := by omega
  simp [noteAppendedLoop, h1, h2]

/-- An open list that is given more items than it has left: "itemCount too
large". -/
theorem noteAppendedLoop_over (out : bytes) (first second itemCount : Nat)
    (rest : List (Nat × Nat)) (h : first < itemCount) :
    noteAppendedLoop out ((first, second) :: rest) itemCount
      = .error (.itemCountTooLarge first itemCount) := by
  simp [noteAppendedLoop, h]

/-- An open list that is given exactly the items it has left is closed: what
was written since it was opened becomes the payload of a list item, which is
then noted as one item of the list around it. -/
theorem noteAppendedLoop_close (out : bytes) (k second : Nat) (rest : List (Nat × Nat))
    (hlen : out.length - second < 2 ^ 64) :
    noteAppendedLoop out ((k, second) :: rest) k
      = noteAppendedLoop (out.take second ++ rlpList (out.drop second)) rest 1 := by
  have hbr := minimalBigEndian_length_le 8 (out.length - second) (by simpa using hlen)
  rw [noteAppendedLoop]
  simp only [Nat.lt_irrefl, if_false, Nat.sub_self, ne_eq, not_true_eq_false]
  by_cases hs : out.length - second < 56
  · have hmod : (192 + (out.length - second)) % 256 = 192 + (out.length - second) :=
      Nat.mod_eq_of_lt (by omega)
    simp [c_rlpListImmLenCount, c_rlpListStart, c_rlpMaxLengthBytes, hs, rlpList, rlpLength, hmod]
  · have hmod : (247 + (minimalBigEndian (out.length - second)).length) % 256
        = 247 + (minimalBigEndian (out.length - second)).length := Nat.mod_eq_of_lt (by omega)
    have hle : 247 + (minimalBigEndian (out.length - second)).length ≤ 255 := by omega
    have hbe := bigEndian_bytesRequired (out.length - second)
    rw [bytesRequired_eq] at hbe
    simp [c_rlpListImmLenCount, c_rlpListStart, c_rlpMaxLengthBytes, c_rlpListIndLenZero, hs,
      rlpList, rlpLength, bytesRequired_eq, hmod, hle, hbe]

theorem appendRaw_zero (s : RLPStream) (rlp : bytes) :
    appendRaw s rlp 0 = .ok ⟨s.m_out ++ rlp, s.m_listStack⟩ := by
  simp [appendRaw, noteAppended]

/-- The member `append(bytesConstRef)` writes the encoding of the byte string
as one item. -/
theorem appendBytes_eq (s : RLPStream) (d : bytes) (hd : d.length < 2 ^ 64) :
    appendBytes s d = appendRaw s (rlpData d) 1 := by
  have hbr := minimalBigEndian_length_le 8 d.length (by simpa using hd)
  by_cases h1 : d.length = 1 ∧ d.headD 0 < 0x80
  · obtain ⟨b, rfl⟩ := List.length_eq_one.1 h1.1
    have hb : b < 128 := by simpa using h1.2
    simp [appendBytes, appendRaw, rlpData, c_rlpDataImmLenStart, hb, bind, Except.bind, pure,
      Except.pure]
  · have h1' : ¬ (d.length = 1 ∧ (d.head?).getD 0 < 128) := by simpa using h1
    by_cases hs : d.length < 56
    · have hmod : (d.length + 128) % 256 = 128 + d.length := by
        rw [Nat.mod_eq_of_lt (by omega)]; omega
      simp [appendBytes, appendRaw, rlpData, rlpLength, c_rlpDataImmLenStart,
        c_rlpDataImmLenCount, c_rlpListStart, c_rlpMaxLengthBytes, h1', hs, hmod, bind,
        Except.bind, pure, Except.pure, noteAppended]
    · have hle : ¬ (minimalBigEndian d.length).length + 183 > 255 := by omega
      have hmod : ((minimalBigEndian d.length).length + 183) % 256
          = 128 + 55 + (minimalBigEndian d.length).length := by
        rw [Nat.mod_eq_of_lt (by omega)]; omega
      have hbe := bigEndian_bytesRequired d.length
      rw [bytesRequired_eq] at hbe
      simp [appendBytes, appendRaw, rlpData, rlpLength, c_rlpDataImmLenStart,
        c_rlpDataImmLenCount, c_rlpListStart, c_rlpMaxLengthBytes, c_rlpDataIndLenZero, h1', hs,
        pushCount, bytesRequired_eq, hle, hmod, hbe, bind, Except.bind, pure, Except.pure,
        noteAppended]

theorem minimalBigEndian_small (i : Nat) (h0 : i ≠ 0) (h : i < 256) : minimalBigEndian i = [i] := by
  have hpos : 0 < i := Nat.pos_of_ne_zero h0
  rw [minimalBigEndian, Nat.digits_def' (by norm_num) hpos]
  simp [Nat.mod_eq_of_lt h, Nat.div_eq_of_lt h]

theorem minimalBigEndian_headD (i : Nat) (h : 256 ≤ i) : (minimalBigEndian i).length ≠ 1 := by
  have hpos : 0 < i := by omega
  have hpos2 : 0 < i / 256 := Nat.div_pos h (by norm_num)
  rw [minimalBigEndian, Nat.digits_def' (by norm_num) hpos, Nat.digits_def' (by norm_num) hpos2]
  simp

/-- The member `append(bigint)` writes the encoding of the minimal big-endian
byte string of the number as one item. -/
theorem appendBigint_eq (s : RLPStream) (i : Nat) (hi : i < 2 ^ 256) :
    appendBigint s i = appendRaw s (rlpInt i) 1 := by
  have hbr := minimalBigEndian_length_le 32 i (by simpa using hi)
  have hbe := bigEndian_bytesRequired i
  rw [bytesRequired_eq] at hbe
  by_cases h0 : i = 0
  · subst h0
    simp [appendBigint, appendRaw, rlpInt, rlpData, rlpLength, minimalBigEndian,
      c_rlpDataImmLenStart, bind, Except.bind, pure, Except.pure]
  · by_cases h1 : i < 128
    · have hm := minimalBigEndian_small i h0 (by omega)
      simp [appendBigint, appendRaw, rlpInt, rlpData, hm, h0, h1, c_rlpDataImmLenStart, bind,
        Except.bind, pure, Except.pure, Nat.mod_eq_of_lt (show i < 256 by omega)]
    · have hnot : ¬ ((minimalBigEndian i).length = 1 ∧ ((minimalBigEndian i).head?).getD 0 < 128) := by
        by_cases h2 : i < 256
        · have hm := minimalBigEndian_small i h0 h2
          rw [hm]; simp; exact Nat.le_of_not_lt h1
        · have := minimalBigEndian_headD i (by omega)
          simp [this]
      have hlt : (minimalBigEndian i).length < 56 := by omega
      have hmod : ((minimalBigEndian i).length + 128) % 256 = 128 + (minimalBigEndian i).length := by
        rw [Nat.mod_eq_of_lt (by omega)]; omega
      simp [appendBigint, appendRaw, rlpInt, rlpData, rlpLength, h0, h1, hnot, hlt, hmod, hbe,
        bytesRequired_eq, c_rlpDataImmLenStart, c_rlpDataImmLenCount, c_rlpListStart,
        c_rlpMaxLengthBytes, bind, Except.bind, pure, Except.pure]

theorem appendList_zero (s : RLPStream) : appendList s 0 = appendRaw s (rlpList []) 1 := by
  simp [appendList, appendListBytes, appendRaw, rlpList, rlpLength, c_rlpListImmLenCount,
    c_rlpListStart, c_rlpMaxLengthBytes, bind, Except.bind, pure, Except.pure, noteAppended]

theorem appendRaws_append (a b : List (bytes × Nat)) : ∀ s : RLPStream,
    appendRaws s (a ++ b) = appendRaws s a >>= fun s1 => appendRaws s1 b := by
  induction a with
  | nil => intro s; simp [appendRaws, Except.ok_bind]
  | cons x a ih =>
    intro s
    obtain ⟨rlp, n⟩ := x
    simp only [List.cons_append, appendRaws]
    cases h : s.appendRaw rlp n with
    | error e => simp [Except.error_bind]
    | ok s1 => simp [ih]

/-- With no list open, appended bytes are only copied, whatever item count is
declared for them. -/
theorem appendRaws_closed (chs : List (bytes × Nat)) : ∀ out : bytes,
    appendRaws ⟨out, []⟩ chs = .ok ⟨out ++ (chs.map Prod.fst).flatten, []⟩ := by
  induction chs with
  | nil => intro out; simp [appendRaws]
  | cons x chs ih =>
    intro out
    obtain ⟨rlp, n⟩ := x
    have h : appendRaw ⟨out, []⟩ rlp n = .ok ⟨out ++ rlp, []⟩ := by
      by_cases hn : n = 0
      · simp [appendRaw, noteAppended, hn]
      · simp [appendRaw, noteAppended, hn, noteAppendedLoop]
    simp [appendRaws, h, ih]

/-- Appends that declare fewer items than the innermost list has left are
copied and counted. -/
theorem appendRaws_open (chs : List (bytes × Nat)) : ∀ (out : bytes) (first second : Nat)
    (rest : List (Nat × Nat)), (chs.map Prod.snd).sum < first →
    appendRaws ⟨out, (first, second) :: rest⟩ chs
      = .ok ⟨out ++ (chs.map Prod.fst).flatten, (first - (chs.map Prod.snd).sum, second) :: rest⟩ := by
  induction chs with
  | nil => intro out first second rest _; simp [appendRaws]
  | cons x chs ih =>
    intro out first second rest hsum
    obtain ⟨rlp, n⟩ := x
    simp only [List.map_cons, List.sum_cons] at hsum
    have h : appendRaw ⟨out, (first, second) :: rest⟩ rlp n
        = .ok ⟨out ++ rlp, (first - n, second) :: rest⟩ := by
      by_cases hn : n = 0
      · simp [appendRaw, noteAppended, hn]
      · simp [appendRaw, noteAppended, hn, noteAppendedLoop_open _ _ _ _ _ (show n < first by omega)]
    simp only [appendRaws, h]
    rw [ih _ _ _ _ (by omega)]
    simp [Nat.sub_add_eq]

end RLPStream

/-! ## The encodings of the generic fields -/

theorem minimalBigEndian_zero : minimalBigEndian 0 = [] := by simp [minimalBigEndian]

theorem minimalBigEndian_one : minimalBigEndian 1 = [1] := by simp [minimalBigEndian]

theorem minimalBigEndian_two_pow_255 :
    minimalBigEndian (2 ^ 255) = 0x80 :: List.replicate 31 0 := by
  rw [← bigEndian_bytesRequired]
  decide

theorem rlpEncodeAll_eq_flatten (xs : List RLPItem) :
    rlpEncodeAll xs = (xs.map rlpEncode).flatten := by
  induction xs with
  | nil => simp [rlpEncodeAll]
  | cons x xs ih => simp [rlpEncodeAll, ih]

theorem rlpEncodeAll_append (xs ys : List RLPItem) :
    rlpEncodeAll (xs ++ ys) = rlpEncodeAll xs ++ rlpEncodeAll ys := by
  simp [rlpEncodeAll_eq_flatten]

theorem rlpLength_length_le (len offset : Nat) (h : len < 2 ^ 64) :
    (rlpLength len offset).length ≤ 9 := by
  have := minimalBigEndian_length_le 8 len (by simpa using h)
  unfold rlpLength
  split
  · simp
  · simp; omega

theorem rlpLength_length_pos (len offset : Nat) : 0 < (rlpLength len offset).length := by
  unfold rlpLength
  split <;> simp

theorem rlpList_length_le (p : bytes) (h : p.length < 2 ^ 64) :
    (rlpList p).length ≤ p.length + 9 := by
  have := rlpLength_length_le p.length 0xc0 h
  simp [rlpList]; omega

theorem rlpList_nil : rlpList [] = [0xc0] := by simp [rlpList, rlpLength]

theorem minimalBigEndian_256 : minimalBigEndian 256 = [1, 0] := by
  rw [← bigEndian_bytesRequired]
  decide

theorem rlpData_short {N : Nat} (h : FixedHash N) (h1 : N ≠ 1) (hN : N < 56) :
    rlpData h.data = (0x80 + N) :: h.data := by
  simp [rlpData, rlpLength, h.size_eq, h1, hN]

theorem rlpData_bloom (h : FixedHash 256) : rlpData h.data = 0xb9 :: 1 :: 0 :: h.data := by
  simp [rlpData, rlpLength, h.size_eq, minimalBigEndian_256]

theorem rlpData_nil : rlpData [] = [0x80] := by simp [rlpData, rlpLength]

theorem rlpInt_zero : rlpInt 0 = [0x80] := by simp [rlpInt, minimalBigEndian_zero, rlpData_nil]

theorem rlpInt_one : rlpInt 1 = [0x01] := by simp [rlpInt, minimalBigEndian_one, rlpData]

theorem rlpInt_two_pow_255 : rlpInt (2 ^ 255) = 0xa0 :: 0x80 :: List.replicate 31 0 := by
  rw [rlpInt, minimalBigEndian_two_pow_255]
  decide

theorem rlpData_minimalBigEndian (n : Nat) : rlpData (minimalBigEndian n) = rlpInt n := rfl

namespace CanonBlockChain

theorem genericFields_length (c : HashConstants) : (genericFields c).length = 13 := rfl

/-- The bytes of the thirteen generic fields. -/
theorem genericFields_encode (c : HashConstants) :
    rlpEncodeAll (genericFields c)
      = (0xa0 :: (FixedHash.zero 32).data) ++ (0xa0 :: c.EmptyListSHA3.data)
        ++ (0x94 :: (FixedHash.zero 20).data) ++ (0xa0 :: c.EmptyTrie.data)
        ++ (0xa0 :: c.EmptyTrie.data) ++ (0xa0 :: c.EmptyTrie.data)
        ++ (0xb9 :: 1 :: 0 :: (FixedHash.zero 256).data)
        ++ [0x01] ++ [0x80] ++ (0xa0 :: 0x80 :: List.replicate 31 0) ++ [0x80] ++ [0x80]
        ++ [0x80] := by
  simp only [genericFields, rlpEncodeAll, rlpEncode, rlpData_bloom, rlpData_nil,
    rlpData_short _ (show (32 : Nat) ≠ 1 by norm_num) (show (32 : Nat) < 56 by norm_num),
    rlpData_short _ (show (20 : Nat) ≠ 1 by norm_num) (show (20 : Nat) < 56 by norm_num),
    rlpData_minimalBigEndian, rlpInt_zero, rlpInt_one, rlpInt_two_pow_255, List.append_assoc,
    List.append_nil]

theorem genericFields_encode_length (c : HashConstants) :
    (rlpEncodeAll (genericFields c)).length = 483 := by
  rw [genericFields_encode]
  simp [FixedHash.size_eq]

end CanonBlockChain

namespace RLPStream

theorem appendRaws_cons (s : RLPStream) (rlp : bytes) (n : Nat) (rest : List (bytes × Nat)) :
    appendRaws s ((rlp, n) :: rest) = s.appendRaw rlp n >>= fun s1 => appendRaws s1 rest := by
  rw [appendRaws]
  cases s.appendRaw rlp n <;> rfl

theorem appendRaws_nil (s : RLPStream) : appendRaws s [] = .ok s := by
  rw [appendRaws]

theorem appendFixedHash_eq {N : Nat} (s : RLPStream) (h : FixedHash N) (hN : N < 2 ^ 64) :
    s.appendFixedHash h = s.appendRaw (rlpData h.data) 1 := by
  rw [appendFixedHash, appendBytes_eq]
  rw [h.size_eq]; exact hN

end RLPStream

namespace CanonBlockChain
open RLPStream

/-- The generic `createGenesisBlock()` is: open the block list of three items
and the header list of `Fields` items, append the thirteen encoded generic
fields one item each, the seal bytes as `SealFields` items and two empty
lists, and take `out()`. -/
theorem createGenesisBlock_eq_appendRaws (c : HashConstants) (S : Sealer) :
    createGenesisBlock c S
      = (RLPStream.mk [] [(3, 0)]).appendList S.Fields >>= fun s =>
          s.appendRaws (genesisAppends c S) >>= fun s1 => s1.out := by
  have h1 : (1 : Nat) % 2 ^ 32 = 1 := by norm_num
  have h2 : (1 <<< 255 : Nat) % 2 ^ 256 = 2 ^ 255 := by norm_num [Nat.shiftLeft_eq]
  have hof : RLPStream.ofListItems 3 = .ok ⟨[], [(3, 0)]⟩ := by
    simp [ofListItems, appendList, RLPStream.empty]
  simp only [createGenesisBlock, headerStream, hof, appendUnsigned, appendU256, appendString,
    appendFixedHash_eq _ _ (show (32 : Nat) < 2 ^ 64 by norm_num),
    appendFixedHash_eq _ _ (show (20 : Nat) < 2 ^ 64 by norm_num),
    appendFixedHash_eq _ _ (show (256 : Nat) < 2 ^ 64 by norm_num),
    appendBytes_eq _ [] (by norm_num), Nat.zero_mod, h1, h2,
    appendBigint_eq _ 0 (by norm_num), appendBigint_eq _ 1 (by norm_num),
    appendBigint_eq _ (2 ^ 255) (by norm_num), genesisAppends, genericFields, List.map_cons,
    List.map_nil, List.cons_append, List.nil_append, appendRaws_cons, appendRaws_nil, rlpEncode,
    rlpInt, Except.ok_bind, bind_assoc, bind_pure]

end CanonBlockChain

namespace RLPStream

theorem appendRaw_open (out rlp : bytes) (first second n : Nat) (rest : List (Nat × Nat))
    (h : n < first) :
    appendRaw ⟨out, (first, second) :: rest⟩ rlp n
      = .ok ⟨out ++ rlp, (first - n, second) :: rest⟩ := by
  by_cases hn : n = 0
  · simp [appendRaw, noteAppended, hn]
  · simp [appendRaw, noteAppended, hn, noteAppendedLoop_open _ _ _ _ _ h]

theorem appendRaw_over (out rlp : bytes) (first second n : Nat) (rest : List (Nat × Nat))
    (h : first < n) :
    appendRaw ⟨out, (first, second) :: rest⟩ rlp n = .error (.itemCountTooLarge first n) := by
  have hn : n ≠ 0 := by omega
  simp [appendRaw, noteAppended, hn, noteAppendedLoop_over _ _ _ _ _ h]

theorem appendRaw_close (out rlp : bytes) (second n : Nat) (rest : List (Nat × Nat))
    (hn : n ≠ 0) (hlen : (out ++ rlp).length - second < 2 ^ 64) :
    appendRaw ⟨out, (n, second) :: rest⟩ rlp n
      = noteAppendedLoop ((out ++ rlp).take second ++ rlpList ((out ++ rlp).drop second)) rest 1 := by
  simp only [appendRaw, noteAppended, hn, if_false]
  exact noteAppendedLoop_close _ _ _ _ hlen

theorem appendRaw_close_zero (out rlp : bytes) (n : Nat) (rest : List (Nat × Nat))
    (hn : n ≠ 0) (hlen : (out ++ rlp).length < 2 ^ 64) :
    appendRaw ⟨out, (n, 0) :: rest⟩ rlp n = noteAppendedLoop (rlpList (out ++ rlp)) rest 1 := by
  rw [appendRaw_close _ _ _ _ _ hn (by simpa using hlen)]
  simp

theorem noteAppendedLoop_nil (out : bytes) (n : Nat) : noteAppendedLoop out [] n = .ok ⟨out, []⟩ := by
  simp [noteAppendedLoop]

theorem out_closed (o : bytes) : RLPStream.out ⟨o, []⟩ = .ok o := by simp [RLPStream.out]

theorem out_open (o : bytes) (p : Nat × Nat) (rest : List (Nat × Nat)) :
    RLPStream.out ⟨o, p :: rest⟩ = .error .listStackNotEmpty := by simp [RLPStream.out]

end RLPStream

namespace CanonBlockChain
open RLPStream

theorem genesisAppends_fields_sum (c : HashConstants) :
    (((genericFields c).map (fun x => (rlpEncode x, 1))).map Prod.snd).sum = 13 := by
  simp [genericFields]

theorem genesisAppends_fields_flatten (c : HashConstants) :
    (((genericFields c).map (fun x => (rlpEncode x, 1))).map Prod.fst).flatten
      = rlpEncodeAll (genericFields c) := by
  rw [rlpEncodeAll_eq_flatten, List.map_map]
  rfl

theorem appendList_pos (out : bytes) (stack : List (Nat × Nat)) (n : Nat) (h : n ≠ 0) :
    appendList ⟨out, stack⟩ n = .ok ⟨out, (n, out.length) :: stack⟩ := by
  simp [appendList, h]

/-- With `Fields = 13 + SealFields` and at least one seal field the header list
closes on the seal fields. -/
theorem createGenesisBlock_balanced (c : HashConstants) (S : Sealer)
    (hF : S.Fields = 13 + S.SealFields) (hS : 0 < S.SealFields)
    (hsize : S.sealFieldsRLP.length + 512 < 2 ^ 64) :
    createGenesisBlock c S
      = .ok (rlpList (rlpList (rlpEncodeAll (genericFields c) ++ S.sealFieldsRLP)
              ++ rlpList [] ++ rlpList [])) := by
  have hlen := genericFields_encode_length c
  have hhdr := rlpList_length_le (rlpEncodeAll (genericFields c) ++ S.sealFieldsRLP)
    (by rw [List.length_append, hlen]; omega)
  rw [List.length_append, hlen] at hhdr
  have h1 : S.Fields - 13 = S.SealFields := by omega
  rw [createGenesisBlock_eq_appendRaws, appendList_pos _ _ _ (by omega), Except.ok_bind,
    genesisAppends, appendRaws_append,
    appendRaws_open _ _ _ _ _ (by rw [genesisAppends_fields_sum]; omega),
    genesisAppends_fields_flatten, genesisAppends_fields_sum, h1, List.nil_append,
    List.length_nil, Except.ok_bind, appendRaws_cons,
    appendRaw_close_zero _ _ _ _ (by omega) (by rw [List.length_append, hlen]; omega),
    noteAppendedLoop_open _ _ _ _ _ (by norm_num), Except.ok_bind, appendRaws_cons,
    appendRaw_open _ _ _ _ _ _ (by norm_num), Except.ok_bind, appendRaws_cons,
    appendRaw_close_zero _ _ _ _ (by norm_num)
      (by simp only [List.length_append, RLPEmptyList, List.length_singleton]; omega),
    noteAppendedLoop_nil, Except.ok_bind, appendRaws_nil, Except.ok_bind, out_closed,
    RLPEmptyList, rlpList_nil, List.append_assoc]

end CanonBlockChain

theorem Except.bind_ok {ε α : Type} (x : Except ε α) : (x >>= fun a => Except.ok a) = x := by
  cases x <;> simp only [bind, Except.bind]

namespace RLPStream

theorem units_sum (xs : List RLPItem) :
    ((xs.map (fun x => (rlpEncode x, 1))).map Prod.snd).sum = xs.length := by
  induction xs with
  | nil => rfl
  | cons x xs ih =>
    rw [List.map_cons, List.map_cons, List.sum_cons, ih, List.length_cons, Nat.add_comm]

theorem units_flatten (xs : List RLPItem) :
    ((xs.map (fun x => (rlpEncode x, 1))).map Prod.fst).flatten = rlpEncodeAll xs := by
  rw [rlpEncodeAll_eq_flatten, List.map_map]
  rfl

/-- A list that receives exactly the items it was opened for is closed by the
last of them. -/
theorem appendRaws_fill (xs : List RLPItem) (x : RLPItem) (out : bytes)
    (rest : List (Nat × Nat))
    (hlen : (out ++ rlpEncodeAll (xs ++ [x])).length < 2 ^ 64) :
    appendRaws ⟨out, ((xs ++ [x]).length, 0) :: rest⟩
        ((xs ++ [x]).map (fun x => (rlpEncode x, 1)))
      = noteAppendedLoop (rlpList (out ++ rlpEncodeAll (xs ++ [x]))) rest 1 := by
  have hlen2 : (out ++ rlpEncodeAll xs ++ rlpEncode x).length < 2 ^ 64 := by
    rw [rlpEncodeAll_append] at hlen
    simpa [rlpEncodeAll, List.append_assoc] using hlen
  have h1 : (xs ++ [x]).length - xs.length = 1 := by simp
  rw [List.map_append, appendRaws_append,
    appendRaws_open _ _ _ _ _ (by rw [units_sum]; simp), Except.ok_bind, units_sum,
    units_flatten, h1, List.map_cons, List.map_nil, appendRaws_cons,
    appendRaw_close_zero _ _ _ _ (by norm_num) hlen2]
  have he : out ++ rlpEncodeAll (xs ++ [x]) = out ++ rlpEncodeAll xs ++ rlpEncode x := by
    simp [rlpEncodeAll_append, rlpEncodeAll]
  rw [he]
  simp only [appendRaws_nil]
  exact Except.bind_ok _

/-- A header list opened for `F` items, inside the block list of three, is
closed by the first `F` of the items that follow and is then the first item of
the block list; with `F = 0` it is written at once as the empty list. -/
theorem header_closed (fs : List RLPItem) (F : Nat) (hF : F ≤ fs.length)
    (hsz : (rlpEncodeAll (fs.take F)).length < 2 ^ 64) :
    ((RLPStream.mk [] [(3, 0)]).appendList F >>= fun s =>
        s.appendRaws ((fs.take F).map (fun x => (rlpEncode x, 1))))
      = .ok ⟨rlpList (rlpEncodeAll (fs.take F)), [(2, 0)]⟩ := by
  by_cases h0 : F = 0
  · subst h0
    rw [appendList_zero, appendRaw_open _ _ _ _ _ _ (by norm_num), Except.ok_bind]
    simp [appendRaws_nil, rlpEncodeAll]
  · rcases List.eq_nil_or_concat (fs.take F) with hnil | ⟨xs, x, hx⟩
    · have : (fs.take F).length = F := by simp [hF]
      rw [hnil] at this
      exact absurd this.symm h0
    · rw [List.concat_eq_append] at hx
      have hl : (xs ++ [x]).length = F := by rw [← hx]; simp [hF]
      rw [hx] at hsz ⊢
      have hap : appendList ⟨[], [(3, 0)]⟩ F = .ok ⟨[], [((xs ++ [x]).length, 0), (3, 0)]⟩ := by
        rw [hl]; simp [appendList, h0]
      have hsz2 : (([] : bytes) ++ rlpEncodeAll (xs ++ [x])).length < 2 ^ 64 := by
        rw [List.nil_append]; exact hsz
      rw [hap, Except.ok_bind, appendRaws_fill _ _ _ _ hsz2,
        noteAppendedLoop_open _ _ _ _ _ (by norm_num), List.nil_append]

/-- Two single items close a list with two items left; what is appended to a
stream with no open list is only copied. -/
theorem appendRaws_two (H a b : bytes) (R : List (bytes × Nat))
    (hsz : (H ++ a ++ b).length < 2 ^ 64) :
    appendRaws ⟨H, [(2, 0)]⟩ ((a, 1) :: (b, 1) :: R)
      = .ok ⟨rlpList (H ++ a ++ b) ++ (R.map Prod.fst).flatten, []⟩ := by
  rw [appendRaws_cons, appendRaw_open _ _ _ _ _ _ (by norm_num), Except.ok_bind, appendRaws_cons,
    appendRaw_close_zero _ _ _ _ (by norm_num) hsz, noteAppendedLoop_nil, Except.ok_bind,
    appendRaws_closed]

end RLPStream

namespace CanonBlockChain
open RLPStream

theorem take_encode_length_le (c : HashConstants) (F : Nat) :
    (rlpEncodeAll ((genericFields c).take F)).length ≤ 483 := by
  have h := genericFields_encode_length c
  rw [← List.take_append_drop F (genericFields c), rlpEncodeAll_append, List.length_append] at h
  omega

/-- With `Fields ≤ 13` the header list is closed by the first `Fields` generic
fields; the rest of the appends go to the block list. -/
theorem createGenesisBlock_split (c : HashConstants) (S : Sealer) (hF : S.Fields ≤ 13) :
    createGenesisBlock c S
      = appendRaws ⟨rlpList (rlpEncodeAll ((genericFields c).take S.Fields)), [(2, 0)]⟩
          (((genericFields c).drop S.Fields).map (fun x => (rlpEncode x, 1))
            ++ [(S.sealFieldsRLP, S.SealFields), (RLPEmptyList, 1), (RLPEmptyList, 1)])
        >>= fun s1 => s1.out := by
  have hsz : (rlpEncodeAll ((genericFields c).take S.Fields)).length < 2 ^ 64 :=
    Nat.lt_of_le_of_lt (take_encode_length_le c S.Fields) (by norm_num)
  have hh := header_closed (genericFields c) S.Fields (by rw [genericFields_length]; exact hF) hsz
  have hsplit : genesisAppends c S
      = ((genericFields c).take S.Fields).map (fun x => (rlpEncode x, 1))
        ++ (((genericFields c).drop S.Fields).map (fun x => (rlpEncode x, 1))
          ++ [(S.sealFieldsRLP, S.SealFields), (RLPEmptyList, 1), (RLPEmptyList, 1)]) := by
    rw [genesisAppends, ← List.append_assoc, ← List.map_append, List.take_append_drop]
  rw [createGenesisBlock_eq_appendRaws, hsplit]
  simp only [appendRaws_append, bind_assoc]
  rw [← bind_assoc, hh, Except.ok_bind]

/-- The case `Fields = 13`, `SealFields = 0`: the header list closes on the
extra-data field and the seal bytes are copied after it. -/
theorem createGenesisBlock_no_seal (c : HashConstants) (S : Sealer)
    (hF : S.Fields = 13) (hS : S.SealFields = 0)
    (hsize : S.sealFieldsRLP.length + 512 < 2 ^ 64) :
    createGenesisBlock c S
      = .ok (rlpList (rlpList (rlpEncodeAll (genericFields c)) ++ S.sealFieldsRLP
              ++ rlpList [] ++ rlpList [])) := by
  have hlen := genericFields_encode_length c
  have hhdr := rlpList_length_le (rlpEncodeAll (genericFields c)) (by rw [hlen]; norm_num)
  have ht : (genericFields c).take 13 = genericFields c := by
    rw [← genericFields_length c, List.take_length]
  have hd : (genericFields c).drop 13 = [] := by
    rw [← genericFields_length c, List.drop_length]
  rw [createGenesisBlock_split c S (by omega), hF, hS, ht, hd, List.map_nil, List.nil_append,
    appendRaws_cons, appendRaw_zero, Except.ok_bind, appendRaws_cons,
    appendRaw_open _ _ _ _ _ _ (by norm_num), Except.ok_bind, appendRaws_cons,
    appendRaw_close_zero _ _ _ _ (by norm_num)
      (by simp only [List.length_append, RLPEmptyList, List.length_singleton]; omega),
    noteAppendedLoop_nil, Except.ok_bind, appendRaws_nil, Except.ok_bind, out_closed,
    RLPEmptyList, rlpList_nil]

/-- The case `13 < Fields < 13 + SealFields`: the seal fields are more items
than the header list has left. -/
theorem createGenesisBlock_seal_over (c : HashConstants) (S : Sealer)
    (h1 : 13 < S.Fields) (h2 : S.Fields < 13 + S.SealFields) :
    createGenesisBlock c S = .error (.itemCountTooLarge (S.Fields - 13) S.SealFields) := by
  rw [createGenesisBlock_eq_appendRaws, appendList_pos _ _ _ (by omega), Except.ok_bind,
    genesisAppends, appendRaws_append,
    appendRaws_open _ _ _ _ _ (by rw [genesisAppends_fields_sum]; omega),
    genesisAppends_fields_flatten, genesisAppends_fields_sum, Except.ok_bind, appendRaws_cons,
    appendRaw_over _ _ _ _ _ _ (by omega), Except.error_bind, Except.error_bind]

/-- The case `13 + SealFields < Fields`: a list is still open at `out()`. -/
theorem createGenesisBlock_open (c : HashConstants) (S : Sealer)
    (h : 13 + S.SealFields < S.Fields) (hsize : S.sealFieldsRLP.length + 512 < 2 ^ 64) :
    createGenesisBlock c S = .error .listStackNotEmpty := by
  have hlen := genericFields_encode_length c
  have hsum : ((((genericFields c).map (fun x => (rlpEncode x, 1)))
      ++ [(S.sealFieldsRLP, S.SealFields)]).map Prod.snd).sum = 13 + S.SealFields := by
    rw [List.map_append, List.sum_append, genesisAppends_fields_sum]; simp
  have hflat : ((((genericFields c).map (fun x => (rlpEncode x, 1)))
      ++ [(S.sealFieldsRLP, S.SealFields)]).map Prod.fst).flatten
        = rlpEncodeAll (genericFields c) ++ S.sealFieldsRLP := by
    rw [List.map_append, List.flatten_append, genesisAppends_fields_flatten]; simp
  have hsplit : genesisAppends c S
      = (((genericFields c).map (fun x => (rlpEncode x, 1)))
          ++ [(S.sealFieldsRLP, S.SealFields)]) ++ [(RLPEmptyList, 1), (RLPEmptyList, 1)] := by
    rw [genesisAppends, List.append_assoc]; rfl
  rw [createGenesisBlock_eq_appendRaws, appendList_pos _ _ _ (by omega), Except.ok_bind,
    hsplit, appendRaws_append, appendRaws_open _ _ _ _ _ (by rw [hsum]; omega), hsum, hflat,
    Except.ok_bind, List.nil_append, List.length_nil, appendRaws_cons]
  by_cases hr1 : S.Fields - (13 + S.SealFields) = 1
  · rw [hr1, appendRaw_close_zero _ _ _ _ (by norm_num)
        (by simp only [List.length_append, RLPEmptyList, List.length_singleton, hlen]; omega),
      noteAppendedLoop_open _ _ _ _ _ (by norm_num), Except.ok_bind, appendRaws_cons,
      appendRaw_open _ _ _ _ _ _ (by norm_num), Except.ok_bind, appendRaws_nil, Except.ok_bind,
      out_open]
  · rw [appendRaw_open _ _ _ _ _ _ (by omega), Except.ok_bind, appendRaws_cons]
    by_cases hr2 : S.Fields - (13 + S.SealFields) - 1 = 1
    · rw [hr2, appendRaw_close_zero _ _ _ _ (by norm_num)
          (by simp only [List.length_append, RLPEmptyList, List.length_singleton, hlen]; omega),
        noteAppendedLoop_open _ _ _ _ _ (by norm_num), Except.ok_bind, appendRaws_nil,
        Except.ok_bind, out_open]
    · rw [appendRaw_open _ _ _ _ _ _ (by omega), Except.ok_bind, appendRaws_nil, Except.ok_bind,
        out_open]

/-- The case `Fields ≤ 11`: the header list closes after `Fields` fields, the
next two fields close the block list, and everything else is appended after
the end of the block list. -/
theorem createGenesisBlock_short (c : HashConstants) (S : Sealer) (hF : S.Fields ≤ 11) :
    ∃ x y zs, (genericFields c).drop S.Fields = x :: y :: zs ∧
      createGenesisBlock c S
        = .ok (rlpList (rlpList (rlpEncodeAll ((genericFields c).take S.Fields))
                  ++ rlpEncode x ++ rlpEncode y)
                ++ (rlpEncodeAll zs ++ S.sealFieldsRLP ++ [0xc0, 0xc0])) := by
  have hdl : ((genericFields c).drop S.Fields).length = 13 - S.Fields := by
    rw [List.length_drop, genericFields_length]
  match hd : (genericFields c).drop S.Fields with
  | [] => rw [hd] at hdl; simp at hdl; omega
  | [_] => rw [hd] at hdl; simp at hdl; omega
  | x :: y :: zs =>
    refine ⟨x, y, zs, rfl, ?_⟩
    have hlen := genericFields_encode_length c
    have htk := take_encode_length_le c S.Fields
    have hhdr := rlpList_length_le (rlpEncodeAll ((genericFields c).take S.Fields))
      (Nat.lt_of_le_of_lt htk (by norm_num))
    have hxy : (rlpEncode x).length + (rlpEncode y).length ≤ 483 := by
      rw [← List.take_append_drop S.Fields (genericFields c), hd, rlpEncodeAll_append,
        rlpEncodeAll, rlpEncodeAll, List.length_append, List.length_append,
        List.length_append] at hlen
      omega
    rw [createGenesisBlock_split c S (by omega), hd, List.map_cons, List.map_cons,
      List.cons_append, List.cons_append,
      appendRaws_two _ _ _ _ (by simp only [List.length_append]; omega), Except.ok_bind,
      out_closed, List.map_append, List.flatten_append, units_flatten]
    simp [RLPEmptyList]

/-- The case `Fields = 12`: the extra-data field is the second item of the
block list, which has one item left when the seal fields are appended. -/
theorem createGenesisBlock_twelve (c : HashConstants) (S : Sealer) (hF : S.Fields = 12)
    (hsize : S.sealFieldsRLP.length + 512 < 2 ^ 64) :
    (2 ≤ S.SealFields → createGenesisBlock c S = .error (.itemCountTooLarge 1 S.SealFields)) ∧
    (S.SealFields = 1 → createGenesisBlock c S
        = .ok (rlpList (rlpList (rlpEncodeAll ((genericFields c).take 12)) ++ rlpData []
                  ++ S.sealFieldsRLP) ++ [0xc0, 0xc0])) ∧
    (S.SealFields = 0 → createGenesisBlock c S
        = .ok (rlpList (rlpList (rlpEncodeAll ((genericFields c).take 12)) ++ rlpData []
                  ++ S.sealFieldsRLP ++ [0xc0]) ++ [0xc0])) := by
  have hd : (genericFields c).drop 12 = [.data []] := rfl
  have htk := take_encode_length_le c 12
  have hhdr := rlpList_length_le (rlpEncodeAll ((genericFields c).take 12))
    (Nat.lt_of_le_of_lt htk (by norm_num))
  have hstart : createGenesisBlock c S
      = appendRaw ⟨rlpList (rlpEncodeAll ((genericFields c).take 12)) ++ rlpData [], [(1, 0)]⟩
          S.sealFieldsRLP S.SealFields >>= fun s =>
            appendRaws s [(RLPEmptyList, 1), (RLPEmptyList, 1)] >>= fun s1 => s1.out := by
    rw [createGenesisBlock_split c S (by omega), hF, hd, List.map_cons, List.map_nil,
      List.cons_append, List.nil_append, appendRaws_cons,
      appendRaw_open _ _ _ _ _ _ (by norm_num), Except.ok_bind, appendRaws_cons, bind_assoc,
      rlpEncode]
  refine ⟨fun h2 => ?_, fun h1 => ?_, fun h0 => ?_⟩
  · rw [hstart, appendRaw_over _ _ _ _ _ _ (by omega), Except.error_bind]
  · rw [hstart, h1, appendRaw_close_zero _ _ _ _ (by norm_num)
        (by simp only [List.length_append, rlpData_nil, List.length_singleton]; omega),
      noteAppendedLoop_nil, Except.ok_bind, appendRaws_closed, Except.ok_bind, out_closed]
    simp [RLPEmptyList]
  · rw [hstart, h0, appendRaw_zero, Except.ok_bind, appendRaws_cons,
      appendRaw_close_zero _ _ _ _ (by norm_num)
        (by simp only [List.length_append, rlpData_nil, List.length_singleton, RLPEmptyList];
            omega),
      noteAppendedLoop_nil, Except.ok_bind, appendRaws_closed, Except.ok_bind, out_closed]
    simp [RLPEmptyList]

end CanonBlockChain

/-! ## Reading the encoding back -/

theorem take_minimalBigEndian (len : Nat) (rest : bytes) :
    fromBigEndian ((minimalBigEndian len ++ rest).take (minimalBigEndian len).length) = len := by
  rw [List.take_left', fromBigEndian_minimalBigEndian]
  rfl

theorem rlpItemSize_data_header (len : Nat) (rest : bytes) (hlen : len < 2 ^ 64) :
    rlpItemSize (rlpLength len 0x80 ++ rest) = some ((rlpLength len 0x80).length, len) := by
  have hk := minimalBigEndian_length_le 8 len (by simpa using hlen)
  by_cases h : len < 56
  · have h1 : ¬ (128 + len < 128) := by omega
    have h2 : 128 + len < 184 := by omega
    simp [rlpLength, h, rlpItemSize, h1, h2]
  · have hpos := minimalBigEndian_length_pos len (by omega)
    have h1 : ¬ (128 + 55 + (minimalBigEndian len).length < 128) := by omega
    have h2 : ¬ (128 + 55 + (minimalBigEndian len).length < 184) := by omega
    have h3 : 128 + 55 + (minimalBigEndian len).length < 192 := by omega
    have h4 : 128 + 55 + (minimalBigEndian len).length - 183 = (minimalBigEndian len).length := by
      omega
    simp only [rlpLength, h, if_false, List.cons_append, rlpItemSize, h1, h2, h3, if_true, h4,
      take_minimalBigEndian, List.length_cons, List.length_append]
    simp [Nat.add_comm]

theorem rlpItemSize_list_header (len : Nat) (rest : bytes) (hlen : len < 2 ^ 64) :
    rlpItemSize (rlpLength len 0xc0 ++ rest) = some ((rlpLength len 0xc0).length, len) := by
  have hk := minimalBigEndian_length_le 8 len (by simpa using hlen)
  by_cases h : len < 56
  · have h1 : ¬ (192 + len < 128) := by omega
    have h2 : ¬ (192 + len < 184) := by omega
    have h3 : ¬ (192 + len < 192) := by omega
    have h4 : 192 + len < 248 := by omega
    simp [rlpLength, h, rlpItemSize, h1, h2, h3, h4]
  · have hpos := minimalBigEndian_length_pos len (by omega)
    have h1 : ¬ (192 + 55 + (minimalBigEndian len).length < 128) := by omega
    have h2 : ¬ (192 + 55 + (minimalBigEndian len).length < 184) := by omega
    have h3 : ¬ (192 + 55 + (minimalBigEndian len).length < 192) := by omega
    have h5 : ¬ (192 + 55 + (minimalBigEndian len).length < 248) := by omega
    have h4 : 192 + 55 + (minimalBigEndian len).length - 247 = (minimalBigEndian len).length := by
      omega
    simp only [rlpLength, h, if_false, List.cons_append, rlpItemSize, h1, h2, h3, h5, h4,
      take_minimalBigEndian, List.length_cons, List.length_append]
    simp [Nat.add_comm]

theorem rlpItemSize_rlpList (p rest : bytes) (hlen : p.length < 2 ^ 64) :
    rlpItemSize (rlpList p ++ rest) = some ((rlpLength p.length 0xc0).length, p.length) := by
  rw [rlpList, List.append_assoc, rlpItemSize_list_header _ _ hlen]

theorem rlpItemSize_rlpData (d rest : bytes) (hlen : d.length < 2 ^ 64) :
    ∃ h, rlpItemSize (rlpData d ++ rest) = some (h, (rlpData d).length - h) ∧
      h ≤ (rlpData d).length ∧ (rlpData d).drop h = d := by
  by_cases h1 : d.length = 1 ∧ d.headD 0 < 0x80
  · obtain ⟨b, rfl⟩ := List.length_eq_one.1 h1.1
    have hb : b < 128 := by simpa using h1.2
    refine ⟨0, ?_⟩
    simp [rlpData, hb, rlpItemSize]
  · refine ⟨(rlpLength d.length 0x80).length, ?_⟩
    simp only [rlpData, h1, if_false]
    rw [List.append_assoc, rlpItemSize_data_header _ _ hlen]
    simp

theorem rlpList_length (p : bytes) :
    (rlpList p).length = (rlpLength p.length 0xc0).length + p.length := by
  simp [rlpList]

theorem rlpSplit_rlpList (p rest : bytes) (hlen : p.length < 2 ^ 64) :
    rlpSplit (rlpList p ++ rest) = some (rlpList p, rest) := by
  simp only [rlpSplit, rlpItemSize_rlpList p rest hlen]
  rw [← rlpList_length]
  simp

theorem rlpSplit_rlpData (d rest : bytes) (hlen : d.length < 2 ^ 64) :
    rlpSplit (rlpData d ++ rest) = some (rlpData d, rest) := by
  obtain ⟨h, hs, hle, _⟩ := rlpItemSize_rlpData d rest hlen
  simp only [rlpSplit, hs]
  rw [Nat.add_sub_cancel' hle]
  simp

theorem rlpPayload_rlpList (p : bytes) (hlen : p.length < 2 ^ 64) :
    rlpPayload (rlpList p) = some p := by
  have h := rlpItemSize_rlpList p [] hlen
  rw [List.append_nil] at h
  simp only [rlpPayload, h]
  rw [← rlpList_length]
  simp [rlpList]

theorem rlpPayload_rlpData (d : bytes) (hlen : d.length < 2 ^ 64) :
    rlpPayload (rlpData d) = some d := by
  obtain ⟨h, hs, hle, hd⟩ := rlpItemSize_rlpData d [] hlen
  rw [List.append_nil] at hs
  simp only [rlpPayload, hs]
  rw [Nat.add_sub_cancel' hle]
  simp [hd]

theorem rlpIsList_rlpList (p : bytes) : rlpIsList (rlpList p) = true := by
  by_cases h : p.length < 56
  · simp [rlpIsList, rlpList, rlpLength, h]
  · simp [rlpIsList, rlpList, rlpLength, h]; omega

theorem rlpIsList_rlpData (d : bytes) (hlen : d.length < 2 ^ 64) :
    rlpIsList (rlpData d) = false := by
  have hk := minimalBigEndian_length_le 8 d.length (by simpa using hlen)
  by_cases h1 : d.length = 1 ∧ d.headD 0 < 0x80
  · obtain ⟨b, rfl⟩ := List.length_eq_one.1 h1.1
    have hb : b < 128 := by simpa using h1.2
    simp [rlpIsList, rlpData, hb]; omega
  · by_cases h : d.length < 56
    · simp only [rlpIsList, rlpData, h1, if_false, rlpLength, h, if_true]
      simp; omega
    · simp only [rlpIsList, rlpData, h1, if_false, rlpLength, h]
      simp; omega

/-- The encoding of an item is read back whole from the front of any bytes it
begins, as long as its length fits 64 bits. -/
theorem rlpSplit_rlpEncode (t : RLPItem) (rest : bytes) (hlen : (rlpEncode t).length < 2 ^ 64) :
    rlpSplit (rlpEncode t ++ rest) = some (rlpEncode t, rest) := by
  cases t with
  | data d =>
    rw [rlpEncode] at hlen ⊢
    have hd : d.length ≤ (rlpData d).length := by
      unfold rlpData; split <;> simp
    exact rlpSplit_rlpData d rest (by omega)
  | list items =>
    rw [rlpEncode] at hlen ⊢
    have hd : (rlpEncodeAll items).length ≤ (rlpList (rlpEncodeAll items)).length := by
      simp [rlpList]
    exact rlpSplit_rlpList _ rest (by omega)

/-- No encoding of an item is a proper beginning of another one. -/
theorem rlpEncode_no_trailing (t u : RLPItem) (r : bytes)
    (h : rlpEncode t ++ r = rlpEncode u) (hlen : (rlpEncode u).length < 2 ^ 64) : r = [] := by
  have ht : (rlpEncode t).length < 2 ^ 64 := by
    have := congrArg List.length h
    rw [List.length_append] at this
    omega
  have h1 := rlpSplit_rlpEncode t r ht
  have h2 := rlpSplit_rlpEncode u [] hlen
  rw [List.append_nil, ← h, h1] at h2
  injection h2 with h2
  injection h2 with _ h3

theorem rlpEncode_length_le_all (x : RLPItem) (xs : List RLPItem) :
    (rlpEncode x).length ≤ (rlpEncodeAll (x :: xs)).length := by
  simp [rlpEncodeAll]

theorem rlpEncode_length_le_of_mem (x : RLPItem) : ∀ xs : List RLPItem, x ∈ xs →
    (rlpEncode x).length ≤ (rlpEncodeAll xs).length := by
  intro xs
  induction xs with
  | nil => intro h; simp at h
  | cons y ys ih =>
    intro h
    rcases List.mem_cons.1 h with rfl | h
    · exact rlpEncode_length_le_all _ _
    · have := ih h
      simp only [rlpEncodeAll, List.length_append]; omega

theorem length_le_rlpData (d : bytes) : d.length ≤ (rlpData d).length := by
  unfold rlpData; split <;> simp

/-- The first `k` items read from the encodings of the items `xs` are the
encodings of the first `k` of them. -/
theorem rlpItems_rlpEncodeAll (k : Nat) : ∀ (xs : List RLPItem) (rest : bytes),
    k ≤ xs.length → (rlpEncodeAll xs).length < 2 ^ 64 →
    rlpItems k (rlpEncodeAll xs ++ rest) = some ((xs.take k).map rlpEncode) := by
  induction k with
  | zero => intro xs rest _ _; simp [rlpItems]
  | succ k ih =>
    intro xs rest hk hsz
    cases xs with
    | nil => simp at hk
    | cons x xs =>
      have hx := rlpEncode_length_le_all x xs
      have hxs : (rlpEncodeAll xs).length < 2 ^ 64 := by
        simp only [rlpEncodeAll, List.length_append] at hsz; omega
      simp only [rlpEncodeAll, List.append_assoc, rlpItems]
      rw [rlpSplit_rlpEncode x _ (by omega)]
      simp only [ih xs rest (by simpa using hk) hxs]
      simp

theorem blockHeaderPayload_rlpList (hp rest : bytes)
    (hsz : (rlpList hp ++ rest).length < 2 ^ 64) :
    blockHeaderPayload (rlpList (rlpList hp ++ rest)) = some hp := by
  have h1 : hp.length < 2 ^ 64 := by
    simp only [List.length_append, rlpList] at hsz; omega
  simp [blockHeaderPayload, rlpIsList_rlpList, rlpPayload_rlpList _ hsz,
    rlpSplit_rlpList _ _ h1, rlpPayload_rlpList _ h1]

theorem headerField_rlpEncodeAll (xs : List RLPItem) (rest tail : bytes) (i : Nat)
    (hi : i < xs.length) (hsz : (rlpList (rlpEncodeAll xs ++ rest) ++ tail).length < 2 ^ 64) :
    headerField (rlpList (rlpList (rlpEncodeAll xs ++ rest) ++ tail)) i
      = (xs[i]?).map rlpEncode := by
  have h1 : (rlpEncodeAll xs).length < 2 ^ 64 := by
    simp only [List.length_append, rlpList] at hsz; omega
  simp only [headerField, blockHeaderPayload_rlpList _ _ hsz, Option.some_bind,
    rlpItems_rlpEncodeAll (i + 1) xs rest (by omega) h1]
  simp [List.getElem?_take, hi]

theorem headerFieldData_rlpEncodeAll (xs : List RLPItem) (rest tail : bytes) (i : Nat) (d : bytes)
    (hi : xs[i]? = some (.data d))
    (hsz : (rlpList (rlpEncodeAll xs ++ rest) ++ tail).length < 2 ^ 64) :
    headerFieldData (rlpList (rlpList (rlpEncodeAll xs ++ rest) ++ tail)) i = some d := by
  have hlt : i < xs.length := by
    by_contra hge
    rw [List.getElem?_eq_none (by omega)] at hi
    exact absurd hi (by simp)
  have hmem : RLPItem.data d ∈ xs := List.mem_iff_getElem?.2 ⟨i, hi⟩
  have hd : d.length < 2 ^ 64 := by
    have h1 : (rlpEncodeAll xs).length < 2 ^ 64 := by
      simp only [List.length_append, rlpList] at hsz; omega
    have h2 := rlpEncode_length_le_of_mem _ xs hmem
    have h3 := length_le_rlpData d
    rw [rlpEncode] at h2
    omega
  simp [headerFieldData, headerField_rlpEncodeAll xs rest tail i hlt hsz, hi, rlpEncode,
    rlpIsList_rlpData d hd, rlpPayload_rlpData d hd]

namespace CanonBlockChain

/-- The shape of the genesis bytes of a consistent sealer: a block list that
begins with the header list, which begins with the thirteen generic fields. -/
theorem createGenesisBlock_shape (c : HashConstants) (S : Sealer)
    (hF : S.Fields = 13 + S.SealFields) (hsize : S.sealFieldsRLP.length + 512 < 2 ^ 64) :
    ∃ inner after : bytes,
      (rlpList (rlpEncodeAll (genericFields c) ++ inner) ++ after).length < 2 ^ 64 ∧
      createGenesisBlock c S
        = .ok (rlpList (rlpList (rlpEncodeAll (genericFields c) ++ inner) ++ after)) ∧
      (0 < S.SealFields → inner = S.sealFieldsRLP ∧ after = [0xc0, 0xc0]) ∧
      (S.SealFields = 0 → inner = [] ∧ after = S.sealFieldsRLP ++ [0xc0, 0xc0]) := by
  have hlen := genericFields_encode_length c
  by_cases hS : 0 < S.SealFields
  · refine ⟨S.sealFieldsRLP, [0xc0, 0xc0], ?_, ?_, fun _ => ⟨rfl, rfl⟩, fun h => by omega⟩
    · have := rlpList_length_le (rlpEncodeAll (genericFields c) ++ S.sealFieldsRLP)
        (by rw [List.length_append, hlen]; omega)
      rw [List.length_append, hlen] at this
      rw [List.length_append]
      simp only [List.length_cons, List.length_nil]
      omega
    · rw [createGenesisBlock_balanced c S hF hS hsize, rlpList_nil]
      simp
  · have hS0 : S.SealFields = 0 := by omega
    refine ⟨[], S.sealFieldsRLP ++ [0xc0, 0xc0], ?_, ?_, fun h => by omega, fun _ => ⟨rfl, rfl⟩⟩
    · have := rlpList_length_le (rlpEncodeAll (genericFields c))
        (by rw [hlen]; norm_num)
      rw [hlen] at this
      rw [List.append_nil, List.length_append, List.length_append]
      simp only [List.length_cons, List.length_nil]
      omega
    · rw [createGenesisBlock_no_seal c S (by omega) hS0 hsize, rlpList_nil]
      simp

end CanonBlockChain

theorem rlpSplitAll_block (n : Nat) (hp : bytes) (hsz : hp.length < 2 ^ 64) :
    rlpSplitAll (n + 3) (rlpList hp ++ [0xc0, 0xc0]) = some [rlpList hp, [0xc0], [0xc0]] := by
  have hne : rlpList hp ++ [0xc0, 0xc0] ≠ [] := by simp
  have h1 : rlpSplit [0xc0, 0xc0] = some ([0xc0], [0xc0]) := by decide
  have h2 : rlpSplit [0xc0] = some ([0xc0], []) := by decide
  rw [rlpSplitAll]
  · rw [rlpSplit_rlpList _ _ hsz]
    simp [rlpSplitAll, h1, h2]
  · exact hne

theorem headerFieldInt_rlpEncodeAll (xs : List RLPItem) (rest tail : bytes) (i n : Nat)
    (hi : xs[i]? = some (.data (minimalBigEndian n)))
    (hsz : (rlpList (rlpEncodeAll xs ++ rest) ++ tail).length < 2 ^ 64) :
    headerFieldInt (rlpList (rlpList (rlpEncodeAll xs ++ rest) ++ tail)) i = some n := by
  rw [headerFieldInt, headerFieldData_rlpEncodeAll xs rest tail i _ hi hsz, Option.map_some',
    fromBigEndian_minimalBigEndian]

/-- The numeric fields and the header payload of the genesis bytes of a
consistent sealer, as read back from the bytes. -/
theorem genesis_numeric_fields_read (c : HashConstants) (S : Sealer)
    (hF : S.Fields = 13 + S.SealFields) (hsize : S.sealFieldsRLP.length + 512 < 2 ^ 64) :
    ∃ out, createGenesisBlock c S = .ok out ∧
      headerFieldInt out 7 = some 1 ∧
      headerFieldInt out 8 = some 0 ∧
      headerFieldInt out 9 = some (2 ^ 255) ∧
      headerFieldInt out 10 = some 0 ∧
      headerFieldInt out 11 = some 0 ∧
      headerFieldData out 12 = some [] ∧
      (genericFields c).length = 13 ∧
      blockHeaderPayload out
        = some (rlpEncodeAll (genericFields c)
            ++ if S.SealFields = 0 then [] else S.sealFieldsRLP) := by
  obtain ⟨inner, after, hsz, hout, hpos, hzero⟩ := createGenesisBlock_shape c S hF hsize
  refine ⟨_, hout, ?_, ?_, ?_, ?_, ?_, ?_, genericFields_length c, ?_⟩
  · exact headerFieldInt_rlpEncodeAll _ _ _ 7 1 rfl hsz
  · exact headerFieldInt_rlpEncodeAll _ _ _ 8 0 rfl hsz
  · exact headerFieldInt_rlpEncodeAll _ _ _ 9 (2 ^ 255) rfl hsz
  · exact headerFieldInt_rlpEncodeAll _ _ _ 10 0 rfl hsz
  · exact headerFieldInt_rlpEncodeAll _ _ _ 11 0 rfl hsz
  · exact headerFieldData_rlpEncodeAll _ _ _ 12 _ rfl hsz
  · rw [blockHeaderPayload_rlpList _ _ hsz]
    by_cases h0 : S.SealFields = 0
    · rw [if_pos h0, (hzero h0).1]
    · rw [if_neg h0, (hpos (by omega)).1]

theorem minimalBigEndian_head_ne_zero (n : Nat) : (minimalBigEndian n).head? ≠ some 0 := by
  by_cases h0 : n = 0
  · subst h0; simp [minimalBigEndian]
  · have hne : Nat.digits 256 n ≠ [] := Nat.digits_ne_nil_iff_ne_zero.2 h0
    have hl := Nat.getLast_digit_ne_zero 256 h0
    rw [minimalBigEndian, List.head?_reverse, List.getLast?_eq_getLast _ hne]
    intro h
    exact hl (Option.some.inj h)

theorem headerField_data (xs : List RLPItem) (rest tail : bytes) (i : Nat) (d : bytes)
    (hi : xs[i]? = some (.data d))
    (hsz : (rlpList (rlpEncodeAll xs ++ rest) ++ tail).length < 2 ^ 64) :
    headerField (rlpList (rlpList (rlpEncodeAll xs ++ rest) ++ tail)) i = some (rlpData d) := by
  have hlt : i < xs.length := by
    by_contra hge
    rw [List.getElem?_eq_none (by omega)] at hi
    exact absurd hi (by simp)
  rw [headerField_rlpEncodeAll xs rest tail i hlt hsz, hi, Option.map_some', rlpEncode]

namespace CanonBlockChain
open RLPStream

/-- The case `Fields = 13` with seal fields: the header list closes on the
extra-data field and the block list has two items left for the seal fields. -/
theorem createGenesisBlock_thirteen (c : HashConstants) (S : Sealer) (hF : S.Fields = 13)
    (hsize : S.sealFieldsRLP.length + 512 < 2 ^ 64) :
    (3 ≤ S.SealFields → createGenesisBlock c S = .error (.itemCountTooLarge 2 S.SealFields)) ∧
    (S.SealFields = 2 → createGenesisBlock c S
        = .ok (rlpList (rlpList (rlpEncodeAll (genericFields c)) ++ S.sealFieldsRLP)
                ++ [0xc0, 0xc0])) ∧
    (S.SealFields = 1 → createGenesisBlock c S
        = .ok (rlpList (rlpList (rlpEncodeAll (genericFields c)) ++ S.sealFieldsRLP ++ [0xc0])
                ++ [0xc0])) := by
  have hlen := genericFields_encode_length c
  have hhdr := rlpList_length_le (rlpEncodeAll (genericFields c)) (by rw [hlen]; norm_num)
  have ht : (genericFields c).take 13 = genericFields c := by
    rw [← genericFields_length c, List.take_length]
  have hd : (genericFields c).drop 13 = [] := by
    rw [← genericFields_length c, List.drop_length]
  have hstart : createGenesisBlock c S
      = appendRaw ⟨rlpList (rlpEncodeAll (genericFields c)), [(2, 0)]⟩
          S.sealFieldsRLP S.SealFields >>= fun s =>
            appendRaws s [(RLPEmptyList, 1), (RLPEmptyList, 1)] >>= fun s1 => s1.out := by
    rw [createGenesisBlock_split c S (by omega), hF, ht, hd, List.map_nil, List.nil_append,
      appendRaws_cons, bind_assoc]
  refine ⟨fun h3 => ?_, fun h2 => ?_, fun h1 => ?_⟩
  · rw [hstart, appendRaw_over _ _ _ _ _ _ (by omega), Except.error_bind]
  · rw [hstart, h2, appendRaw_close_zero _ _ _ _ (by norm_num)
        (by simp only [List.length_append]; omega),
      noteAppendedLoop_nil, Except.ok_bind, appendRaws_closed, Except.ok_bind, out_closed]
    simp [RLPEmptyList]
  · rw [hstart, h1, appendRaw_open _ _ _ _ _ _ (by norm_num), Except.ok_bind, appendRaws_cons,
      appendRaw_close_zero _ _ _ _ (by norm_num)
        (by simp only [List.length_append, List.length_singleton, RLPEmptyList]; omega),
      noteAppendedLoop_nil, Except.ok_bind, appendRaws_closed, Except.ok_bind, out_closed]
    simp [RLPEmptyList]

theorem rlpEncode_list_three (a b d : RLPItem) :
    rlpEncode (.list [a, b, d]) = rlpList (rlpEncode a ++ rlpEncode b ++ rlpEncode d) := by
  rw [rlpEncode, rlpEncodeAll, rlpEncodeAll, rlpEncodeAll, rlpEncodeAll, List.append_nil,
    List.append_assoc]

theorem rlpEncode_list_nil : rlpEncode (.list []) = [0xc0] := by
  rw [rlpEncode, rlpEncodeAll, rlpList_nil]

/-- With fewer header fields declared than the code streams (or with as many
and one or two seal fields) the block list is closed early: the bytes returned
are a three-item list followed by more bytes. -/
theorem createGenesisBlock_trailing (c : HashConstants) (S : Sealer) (its : List RLPItem)
    (hits : its.length = S.SealFields) (hseal : S.sealFieldsRLP = rlpEncodeAll its)
    (hsize : S.sealFieldsRLP.length + 512 < 2 ^ 64)
    (hF : S.Fields ≤ 11 ∨ (S.Fields = 12 ∧ S.SealFields ≤ 1)
      ∨ (S.Fields = 13 ∧ 1 ≤ S.SealFields ∧ S.SealFields ≤ 2)) :
    ∃ ts trailing, ts.length = 3 ∧ trailing ≠ [] ∧
      (rlpEncode (.list ts) ++ trailing).length < 2 ^ 64 ∧
      createGenesisBlock c S = .ok (rlpEncode (.list ts) ++ trailing) := by
  have hlen := genericFields_encode_length c
  have htk := take_encode_length_le c S.Fields
  have hhdr := rlpList_length_le (rlpEncodeAll ((genericFields c).take S.Fields))
    (Nat.lt_of_le_of_lt htk (by norm_num))
  have hsplit : (rlpEncodeAll ((genericFields c).take S.Fields)).length
      + (rlpEncodeAll ((genericFields c).drop S.Fields)).length = 483 := by
    rw [← List.length_append, ← rlpEncodeAll_append, List.take_append_drop, hlen]
  rcases hF with hF | ⟨hF, hS⟩ | ⟨hF, hS1, hS2⟩
  · obtain ⟨x, y, zs, hd, hout⟩ := createGenesisBlock_short c S hF
    rw [hd] at hsplit
    simp only [rlpEncodeAll, List.length_append] at hsplit
    have hX := rlpList_length_le (rlpList (rlpEncodeAll ((genericFields c).take S.Fields))
      ++ rlpEncode x ++ rlpEncode y) (by simp only [List.length_append]; omega)
    simp only [List.length_append] at hX
    refine ⟨[.list ((genericFields c).take S.Fields), x, y],
      rlpEncodeAll zs ++ S.sealFieldsRLP ++ [0xc0, 0xc0], rfl, by simp, ?_, ?_⟩
    · rw [rlpEncode_list_three, rlpEncode]
      simp only [List.length_append, List.length_cons, List.length_nil]
      omega
    · rw [hout, rlpEncode_list_three, rlpEncode]
  · have htk12 := take_encode_length_le c 12
    rw [hF] at hhdr
    obtain ⟨_, h1, h0⟩ := createGenesisBlock_twelve c S hF (by omega)
    by_cases hS1 : S.SealFields = 1
    · obtain ⟨t, ht⟩ := List.length_eq_one.1 (hits.trans hS1)
      have hst : S.sealFieldsRLP = rlpEncode t := by
        rw [hseal, ht, rlpEncodeAll, rlpEncodeAll, List.append_nil]
      have hX := rlpList_length_le (rlpList (rlpEncodeAll ((genericFields c).take 12))
        ++ rlpData [] ++ S.sealFieldsRLP)
        (by simp only [List.length_append, rlpData_nil, List.length_singleton]; omega)
      simp only [List.length_append, rlpData_nil, List.length_singleton] at hX
      refine ⟨[.list ((genericFields c).take 12), .data [], t], [0xc0, 0xc0], rfl, by simp,
        ?_, ?_⟩
      · rw [rlpEncode_list_three, rlpEncode, rlpEncode, ← hst]
        simp only [List.length_append, List.length_cons, List.length_nil, rlpData_nil]
        omega
      · rw [h1 hS1, rlpEncode_list_three, rlpEncode, rlpEncode, ← hst]
    · have hS0 : S.SealFields = 0 := by omega
      have hnil : its = [] := List.length_eq_zero.1 (hits.trans hS0)
      have hst : S.sealFieldsRLP = [] := by rw [hseal, hnil, rlpEncodeAll]
      have hX := rlpList_length_le (rlpList (rlpEncodeAll ((genericFields c).take 12))
        ++ rlpData [] ++ [0xc0])
        (by simp only [List.length_append, rlpData_nil, List.length_singleton]; omega)
      simp only [List.length_append, rlpData_nil, List.length_singleton] at hX
      refine ⟨[.list ((genericFields c).take 12), .data [], .list []], [0xc0], rfl, by simp,
        ?_, ?_⟩
      · rw [rlpEncode_list_three, rlpEncode, rlpEncode, rlpEncode_list_nil]
        simp only [List.length_append, List.length_cons, List.length_nil, rlpData_nil]
        omega
      · rw [h0 hS0, rlpEncode_list_three, rlpEncode, rlpEncode, rlpEncode_list_nil, hst,
          List.append_nil]
  · have hE := rlpList_length_le (rlpEncodeAll (genericFields c)) (by rw [hlen]; norm_num)
    rw [hlen] at hE
    obtain ⟨_, h2, h1⟩ := createGenesisBlock_thirteen c S hF hsize
    by_cases hS : S.SealFields = 2
    · obtain ⟨t, u, ht⟩ := List.length_eq_two.1 (hits.trans hS)
      have hst : S.sealFieldsRLP = rlpEncode t ++ rlpEncode u := by
        rw [hseal, ht, rlpEncodeAll, rlpEncodeAll, rlpEncodeAll, List.append_nil]
      have hX := rlpList_length_le (rlpList (rlpEncodeAll (genericFields c))
        ++ S.sealFieldsRLP) (by simp only [List.length_append]; omega)
      simp only [List.length_append] at hX
      refine ⟨[.list (genericFields c), t, u], [0xc0, 0xc0], rfl, by simp, ?_, ?_⟩
      · rw [rlpEncode_list_three, rlpEncode, List.append_assoc, ← hst]
        simp only [List.length_append, List.length_cons, List.length_nil]
        omega
      · rw [h2 hS, rlpEncode_list_three, rlpEncode, List.append_assoc, ← hst]
    · have hS1' : S.SealFields = 1 := by omega
      obtain ⟨t, ht⟩ := List.length_eq_one.1 (hits.trans hS1')
      have hst : S.sealFieldsRLP = rlpEncode t := by
        rw [hseal, ht, rlpEncodeAll, rlpEncodeAll, List.append_nil]
      have hX := rlpList_length_le (rlpList (rlpEncodeAll (genericFields c))
        ++ S.sealFieldsRLP ++ [0xc0])
        (by simp only [List.length_append, List.length_singleton]; omega)
      simp only [List.length_append, List.length_singleton] at hX
      refine ⟨[.list (genericFields c), t, .list []], [0xc0], rfl, by simp, ?_, ?_⟩
      · rw [rlpEncode_list_three, rlpEncode, rlpEncode_list_nil, ← hst]
        simp only [List.length_append, List.length_cons, List.length_nil]
        omega
      · rw [h1 hS1', rlpEncode_list_three, rlpEncode, rlpEncode_list_nil, ← hst]

end CanonBlockChain

/-! ## The block of a consistent sealer -/

/-- The block list of a sealer with `Fields = 13 + SealFields` that has a seal
field or returns no seal bytes, as bytes and as read back. -/
theorem createGenesisBlock_block_list_of_seal (c : HashConstants) (S : Sealer)
    (hF : S.Fields = 13 + S.SealFields) (hS : 0 < S.SealFields ∨ S.sealFieldsRLP = [])
    (hsize : S.sealFieldsRLP.length + 512 < 2 ^ 64) :
    ∃ out, createGenesisBlock c S = .ok out ∧
      out = rlpList (rlpList (rlpEncodeAll (genericFields c) ++ S.sealFieldsRLP)
              ++ rlpList [] ++ rlpList []) ∧
      (genericFields c).length = 13 ∧
      rlpListItems out
        = some [rlpList (rlpEncodeAll (genericFields c) ++ S.sealFieldsRLP), [0xc0], [0xc0]] ∧
      blockHeaderPayload out = some (rlpEncodeAll (genericFields c) ++ S.sealFieldsRLP) ∧
      ∃ front, out = front ++ [0xc0, 0xc0] := by
  have hlen := genericFields_encode_length c
  have hp : (rlpEncodeAll (genericFields c) ++ S.sealFieldsRLP).length < 2 ^ 64 := by
    rw [List.length_append, hlen]; omega
  have hhdr := rlpList_length_le _ hp
  rw [List.length_append, hlen] at hhdr
  have hout : createGenesisBlock c S
      = .ok (rlpList (rlpList (rlpEncodeAll (genericFields c) ++ S.sealFieldsRLP)
              ++ rlpList [] ++ rlpList [])) := by
    rcases hS with hS | hS
    · exact createGenesisBlock_balanced c S hF hS hsize
    · by_cases h0 : 0 < S.SealFields
      · exact createGenesisBlock_balanced c S hF h0 hsize
      · rw [createGenesisBlock_no_seal c S (by omega) (by omega) hsize, hS, List.append_nil,
          List.append_nil]
  have hsz : (rlpList (rlpEncodeAll (genericFields c) ++ S.sealFieldsRLP)
      ++ [0xc0, 0xc0]).length < 2 ^ 64 := by
    rw [List.length_append]; simp only [List.length_cons, List.length_nil]; omega
  have hform : rlpList (rlpEncodeAll (genericFields c) ++ S.sealFieldsRLP)
      ++ rlpList [] ++ rlpList []
      = rlpList (rlpEncodeAll (genericFields c) ++ S.sealFieldsRLP) ++ [0xc0, 0xc0] := by
    rw [rlpList_nil]; simp
  refine ⟨_, hout, rfl, genericFields_length c, ?_, ?_, ?_⟩
  · have hpos : 0 < (rlpList (rlpEncodeAll (genericFields c) ++ S.sealFieldsRLP)).length := by
      rw [rlpList_length]
      have := rlpLength_length_pos (rlpEncodeAll (genericFields c) ++ S.sealFieldsRLP).length 0xc0
      omega
    have hfuel : (rlpList (rlpEncodeAll (genericFields c) ++ S.sealFieldsRLP)
        ++ [0xc0, 0xc0]).length
        = ((rlpList (rlpEncodeAll (genericFields c) ++ S.sealFieldsRLP)).length - 1) + 3 := by
      rw [List.length_append]; simp only [List.length_cons, List.length_nil]; omega
    rw [hform, rlpListItems, rlpIsList_rlpList, if_pos rfl, rlpPayload_rlpList _ hsz,
      Option.some_bind, hfuel, rlpSplitAll_block _ _ hp]
  · rw [hform, blockHeaderPayload_rlpList _ _ hsz]
  · rw [hform, rlpList, ← List.append_assoc]
    exact ⟨_, rfl⟩

/-- The genesis bytes of a consistent sealer whose seal bytes are the encodings
of its `SealFields` items: the encoding of the block of header, no uncles, no
transactions. -/
theorem createGenesisBlock_of_items (c : HashConstants) (S : Sealer) (its : List RLPItem)
    (hF : S.Fields = 13 + S.SealFields) (hits : its.length = S.SealFields)
    (hseal : S.sealFieldsRLP = rlpEncodeAll its)
    (hsize : S.sealFieldsRLP.length + 512 < 2 ^ 64) :
    createGenesisBlock c S
      = .ok (rlpEncode (.list [.list (genericFields c ++ its), .list [], .list []])) := by
  rw [rlpEncode_list_three, rlpEncode_list_nil, rlpEncode, rlpEncodeAll_append, ← hseal]
  by_cases h0 : 0 < S.SealFields
  · rw [createGenesisBlock_balanced c S hF h0 (by omega), rlpList_nil]
  · have hnil : its = [] := List.length_eq_zero.1 (hits.trans (by omega))
    have hst : S.sealFieldsRLP = [] := by rw [hseal, hnil, rlpEncodeAll]
    rw [createGenesisBlock_no_seal c S (by omega) (by omega) (by omega), rlpList_nil, hst,
      List.append_nil, List.append_nil]

/-! ## The claims -/

/-- C1. For every sealer with `Fields = 13 + SealFields` (whose `sealFieldsRLP`
is, as the code passes it on, the encodings of its `SealFields` seal items;
output within the 64-bit size range), the generic `createGenesisBlock()`
returns the encoding of a list of exactly three items, in this order: the
header list, which holds the thirteen generic fields followed by the raw
`sealFieldsRLP` bytes, an empty list and an empty list; the output ends with
the bytes 0xC0 0xC0. -/
theorem createGenesisBlock_is_block_list (c : HashConstants) (S : Sealer) (its : List RLPItem)
    (hF : S.Fields = 13 + S.SealFields) (hits : its.length = S.SealFields)
    (hseal : S.sealFieldsRLP = rlpEncodeAll its)
    (hsize : S.sealFieldsRLP.length + 512 < 2 ^ 64) :
    ∃ out, createGenesisBlock c S = .ok out ∧
      out = rlpEncode (.list [.list (genericFields c ++ its), .list [], .list []]) ∧
      out = rlpList (rlpList (rlpEncodeAll (genericFields c) ++ S.sealFieldsRLP)
              ++ rlpList [] ++ rlpList []) ∧
      (genericFields c).length = 13 ∧
      rlpListItems out
        = some [rlpList (rlpEncodeAll (genericFields c) ++ S.sealFieldsRLP), [0xc0], [0xc0]] ∧
      blockHeaderPayload out = some (rlpEncodeAll (genericFields c) ++ S.sealFieldsRLP) ∧
      ∃ front, out = front ++ [0xc0, 0xc0] := by
  have hS : 0 < S.SealFields ∨ S.sealFieldsRLP = [] := by
    by_cases h0 : 0 < S.SealFields
    · exact Or.inl h0
    · have hnil : its = [] := List.length_eq_zero.1 (hits.trans (by omega))
      exact Or.inr (by rw [hseal, hnil, rlpEncodeAll])
  obtain ⟨out, h1, h2, h3, h4, h5, h6⟩ := createGenesisBlock_block_list_of_seal c S hF hS hsize
  have ht := createGenesisBlock_of_items c S its hF hits hseal hsize
  rw [h1] at ht
  exact ⟨out, h1, Except.ok.inj ht, h2, h3, h4, h5, h6⟩

set_option maxRecDepth 100000 in
/-- Witness of C1: the sealer with two seal fields, a 32-byte and an 8-byte
string. -/
theorem createGenesisBlock_is_block_list_witness :
    (sampleSealer.Fields = 13 + sampleSealer.SealFields ∧
      [RLPItem.data (List.replicate 32 0), RLPItem.data (List.replicate 8 0)].length
        = sampleSealer.SealFields ∧
      sampleSealer.sealFieldsRLP
        = rlpEncodeAll [.data (List.replicate 32 0), .data (List.replicate 8 0)] ∧
      sampleSealer.sealFieldsRLP.length + 512 < 2 ^ 64) ∧
    ∃ out, createGenesisBlock sampleConstants sampleSealer = .ok out ∧
      rlpListItems out
        = some [rlpList (rlpEncodeAll (genericFields sampleConstants) ++ sampleSealFields),
            [0xc0], [0xc0]] ∧
      ∃ front, out = front ++ [0xc0, 0xc0] :=
  ⟨⟨by decide, by decide, by decide, by decide⟩,
    match createGenesisBlock_is_block_list sampleConstants sampleSealer
      [.data (List.replicate 32 0), .data (List.replicate 8 0)]
      (by decide) (by decide) (by decide) (by decide) with
    | ⟨out, h1, _, _, _, h4, _, h6⟩ => ⟨out, h1, h4, h6⟩⟩

/-- C2. In the header list of the genesis bytes of a consistent sealer
(`Fields = 13 + SealFields`, output within the 64-bit size range) the first
seven fields are, in this order, the parent hash of 32 zero bytes, the uncles
hash `EmptyListSHA3`, the coinbase of 20 zero bytes, three times `EmptyTrie`
(state, transactions and receipts root) and the log bloom of 256 zero bytes;
the last generic field, number 13, is the empty extra data. -/
theorem genesis_header_first_fields (c : HashConstants) (S : Sealer)
    (hF : S.Fields = 13 + S.SealFields) (hsize : S.sealFieldsRLP.length + 512 < 2 ^ 64) :
    ∃ out, createGenesisBlock c S = .ok out ∧
      headerFieldData out 0 = some (List.replicate 32 0) ∧
      headerFieldData out 1 = some c.EmptyListSHA3.data ∧
      headerFieldData out 2 = some (List.replicate 20 0) ∧
      headerFieldData out 3 = some c.EmptyTrie.data ∧
      headerFieldData out 4 = some c.EmptyTrie.data ∧
      headerFieldData out 5 = some c.EmptyTrie.data ∧
      headerFieldData out 6 = some (List.replicate 256 0) ∧
      headerFieldData out 12 = some [] := by
  obtain ⟨inner, after, hsz, hout, _, _⟩ := createGenesisBlock_shape c S hF hsize
  refine ⟨_, hout, ?_, ?_, ?_, ?_, ?_, ?_, ?_, ?_⟩
  · exact headerFieldData_rlpEncodeAll _ _ _ 0 _ rfl hsz
  · exact headerFieldData_rlpEncodeAll _ _ _ 1 _ rfl hsz
  · exact headerFieldData_rlpEncodeAll _ _ _ 2 _ rfl hsz
  · exact headerFieldData_rlpEncodeAll _ _ _ 3 _ rfl hsz
  · exact headerFieldData_rlpEncodeAll _ _ _ 4 _ rfl hsz
  · exact headerFieldData_rlpEncodeAll _ _ _ 5 _ rfl hsz
  · exact headerFieldData_rlpEncodeAll _ _ _ 6 _ rfl hsz
  · exact headerFieldData_rlpEncodeAll _ _ _ 12 _ rfl hsz

set_option maxRecDepth 100000 in
/-- Witness of C2: the sealer with two seal fields. -/
theorem genesis_header_first_fields_witness :
    (sampleSealer.Fields = 13 + sampleSealer.SealFields ∧
      sampleSealer.sealFieldsRLP.length + 512 < 2 ^ 64) ∧
    ∃ out, createGenesisBlock sampleConstants sampleSealer = .ok out ∧
      headerFieldData out 0 = some (List.replicate 32 0) ∧
      headerFieldData out 1 = some sampleConstants.EmptyListSHA3.data ∧
      headerFieldData out 2 = some (List.replicate 20 0) ∧
      headerFieldData out 3 = some sampleConstants.EmptyTrie.data ∧
      headerFieldData out 4 = some sampleConstants.EmptyTrie.data ∧
      headerFieldData out 5 = some sampleConstants.EmptyTrie.data ∧
      headerFieldData out 6 = some (List.replicate 256 0) ∧
      headerFieldData out 12 = some [] :=
  ⟨⟨by decide, by decide⟩,
    genesis_header_first_fields sampleConstants sampleSealer (by decide) (by decide)⟩

/-- C3 (amended). In the header list of the genesis bytes of a consistent
sealer the fields that follow the log bloom are, in this order: the difficulty,
which is 1; the block number, 0; the gas limit, which is 1 shifted left by 255
bits; the gas used, 0; the timestamp, 0; and the empty extra data. The header
payload is these thirteen generic fields followed by the seal bytes (which are
inside the header list when there is a seal field). -/
theorem genesis_header_numeric_fields (c : HashConstants) (S : Sealer)
    (hF : S.Fields = 13 + S.SealFields) (hsize : S.sealFieldsRLP.length + 512 < 2 ^ 64) :
    ∃ out, createGenesisBlock c S = .ok out ∧
      headerFieldInt out 7 = some 1 ∧
      headerFieldInt out 8 = some 0 ∧
      headerFieldInt out 9 = some (2 ^ 255) ∧
      headerFieldInt out 10 = some 0 ∧
      headerFieldInt out 11 = some 0 ∧
      headerFieldData out 12 = some [] ∧
      (genericFields c).length = 13 ∧
      blockHeaderPayload out
        = some (rlpEncodeAll (genericFields c)
            ++ if S.SealFields = 0 then [] else S.sealFieldsRLP) :=
  genesis_numeric_fields_read c S hF hsize

set_option maxRecDepth 100000 in
/-- Witness of C3 (amended): the sealer with two seal fields. -/
theorem genesis_header_numeric_fields_witness :
    (sampleSealer.Fields = 13 + sampleSealer.SealFields ∧
      sampleSealer.sealFieldsRLP.length + 512 < 2 ^ 64) ∧
    ∃ out, createGenesisBlock sampleConstants sampleSealer = .ok out ∧
      headerFieldInt out 7 = some 1 ∧
      headerFieldInt out 8 = some 0 ∧
      headerFieldInt out 9 = some (2 ^ 255) ∧
      headerFieldInt out 10 = some 0 ∧
      headerFieldInt out 11 = some 0 ∧
      headerFieldData out 12 = some [] :=
  ⟨⟨by decide, by decide⟩,
    match genesis_header_numeric_fields sampleConstants sampleSealer (by decide) (by decide) with
    | ⟨out, h0, h1, h2, h3, h4, h5, h6, _⟩ => ⟨out, h0, h1, h2, h3, h4, h5, h6⟩⟩

set_option maxRecDepth 100000 in
/-- Counterexample to C3 as stated, at the sealer with two seal fields: the
field that follows the log bloom holds 1, not 1 shifted left by 255 bits, which
is held two fields later; extra data is the thirteenth field, not the
twelfth, and the header list has 13 + 2 items. -/
theorem genesis_difficulty_is_one :
    (createGenesisBlock sampleConstants sampleSealer).map
        (fun out => ([headerFieldInt out 7, headerFieldInt out 9, headerFieldInt out 11],
          headerFieldData out 12,
          ((blockHeaderPayload out).bind (fun p => rlpSplitAll p.length p)).map List.length))
      = .ok ([some 1, some (2 ^ 255), some 0], some [], some 15) ∧
    (1 : Nat) ≠ 2 ^ 255 := by
  decide

/-- C4 (amended). The genesis bytes of the generic variant do not depend on the
override state: for every extra data `e`, difficulty `d` and gas limit `g`
forced before the call, the generic `createGenesisBlock()` returns the bytes it
returns with no override, and (for a consistent sealer) these carry the fixed
values of the code, empty extra data, difficulty 1 and gas limit 2^255; the
call leaves the override state as it was. -/
theorem generic_genesis_ignores_overrides (c : HashConstants) (S : Sealer) (σ : GenesisStatics)
    (e : bytes) (d g : u256)
    (hF : S.Fields = 13 + S.SealFields) (hsize : S.sealFieldsRLP.length + 512 < 2 ^ 64) :
    (callCreateGenesisBlock c S
        (((σ.forceGenesisExtraData e).forceGenesisDifficulty d).forceGenesisGasLimit g)).1
      = (callCreateGenesisBlock c S σ).1 ∧
    (callCreateGenesisBlock c S
        (((σ.forceGenesisExtraData e).forceGenesisDifficulty d).forceGenesisGasLimit g)).2
      = ((σ.forceGenesisExtraData e).forceGenesisDifficulty d).forceGenesisGasLimit g ∧
    ∃ out, (callCreateGenesisBlock c S
        (((σ.forceGenesisExtraData e).forceGenesisDifficulty d).forceGenesisGasLimit g)).1
        = .ok out ∧
      headerFieldData out 12 = some [] ∧
      headerFieldInt out 7 = some 1 ∧
      headerFieldInt out 9 = some (2 ^ 255) := by
  obtain ⟨out, h0, h7, _, h9, _, _, h12, _⟩ := genesis_numeric_fields_read c S hF hsize
  exact ⟨rfl, rfl, out, h0, h12, h7, h9⟩

set_option maxRecDepth 100000 in
/-- Witness of C4 (amended): the sealer with two seal fields and the overrides
extra data 0x42, difficulty 5, gas limit 7. -/
theorem generic_genesis_ignores_overrides_witness :
    (sampleSealer.Fields = 13 + sampleSealer.SealFields ∧
      sampleSealer.sealFieldsRLP.length + 512 < 2 ^ 64) ∧
    (callCreateGenesisBlock sampleConstants sampleSealer (forcedStatics (FixedHash.zero 8))).1
      = (callCreateGenesisBlock sampleConstants sampleSealer
          (GenesisStatics.fresh (FixedHash.zero 8))).1 :=
  ⟨⟨by decide, by decide⟩,
    (generic_genesis_ignores_overrides sampleConstants sampleSealer
      (GenesisStatics.fresh (FixedHash.zero 8)) [0x42] 5 7 (by decide) (by decide)).1⟩

set_option maxRecDepth 100000 in
/-- Counterexample to C4 as stated: after `forceGenesisExtraData({0x42})`,
`forceGenesisDifficulty(5)` and `forceGenesisGasLimit(7)` the generic genesis
bytes carry the empty extra data, difficulty 1 and gas limit 2^255. -/
theorem generic_genesis_not_forced_values :
    ((forcedStatics (FixedHash.zero 8)).s_genesisExtraData,
      (forcedStatics (FixedHash.zero 8)).s_genesisDifficulty,
      (forcedStatics (FixedHash.zero 8)).s_genesisGasLimit) = ([0x42], 5, 7) ∧
    (callCreateGenesisBlock sampleConstants sampleSealer (forcedStatics (FixedHash.zero 8))).1.map
        (fun out => (headerFieldData out 12, headerFieldInt out 7, headerFieldInt out 9))
      = .ok (some [], some 1, some (2 ^ 255)) := by
  decide

/-- C5. For every state of the static genesis fields, `isNonStandard()` is true
exactly if the forced extra data is not empty or the forced difficulty is not
zero or the forced gas limit is not zero, and false exactly if all three are at
their defaults. -/
theorem isNonStandard_iff (σ : GenesisStatics) :
    (σ.isNonStandard = true ↔
      (σ.s_genesisExtraData ≠ [] ∨ σ.s_genesisDifficulty ≠ 0 ∨ σ.s_genesisGasLimit ≠ 0)) ∧
    (σ.isNonStandard = false ↔
      (σ.s_genesisExtraData = [] ∧ σ.s_genesisDifficulty = 0 ∧ σ.s_genesisGasLimit = 0)) := by
  constructor
  · simp [GenesisStatics.isNonStandard, or_assoc]
  · simp [GenesisStatics.isNonStandard, and_assoc]

/-- C6. With the static genesis fields in their default-constructed state and
no setter called, `isNonStandard()` is false. -/
theorem isNonStandard_fresh (nonce : h64) : (GenesisStatics.fresh nonce).isNonStandard = false := by
  simp [GenesisStatics.isNonStandard, GenesisStatics.fresh]

/-- C8. The integer fields of the genesis header of a consistent sealer are
written as minimal big-endian byte strings with no leading zero byte: the four
zeros (number, gas used, timestamp) and the empty extra data are the single
byte 0x80, the difficulty 1 is the single byte 0x01, the gas limit 2^255 is
0xA0 and the 32 bytes 0x80 0x00 ... 0x00. The hash, address and bloom fields
keep their 32, 20 and 256 bytes, zero or not. The thirteen generic fields take
483 bytes of the header payload. -/
theorem genesis_fields_minimal_encoding (c : HashConstants) (S : Sealer)
    (hF : S.Fields = 13 + S.SealFields) (hsize : S.sealFieldsRLP.length + 512 < 2 ^ 64) :
    ∃ out, createGenesisBlock c S = .ok out ∧
      (headerField out 7 = some [0x01] ∧ headerField out 8 = some [0x80] ∧
        headerField out 9 = some (0xa0 :: 0x80 :: List.replicate 31 0) ∧
        headerField out 10 = some [0x80] ∧ headerField out 11 = some [0x80] ∧
        headerField out 12 = some [0x80]) ∧
      (headerFieldData out 7 = some (minimalBigEndian 1) ∧
        headerFieldData out 8 = some (minimalBigEndian 0) ∧
        headerFieldData out 9 = some (minimalBigEndian (2 ^ 255)) ∧
        headerFieldData out 10 = some (minimalBigEndian 0) ∧
        headerFieldData out 11 = some (minimalBigEndian 0) ∧
        ∀ n, (minimalBigEndian n).head? ≠ some 0) ∧
      (headerField out 0 = some (0xa0 :: List.replicate 32 0) ∧
        headerField out 1 = some (0xa0 :: c.EmptyListSHA3.data) ∧
        headerField out 2 = some (0x94 :: List.replicate 20 0) ∧
        headerField out 3 = some (0xa0 :: c.EmptyTrie.data) ∧
        headerField out 4 = some (0xa0 :: c.EmptyTrie.data) ∧
        headerField out 5 = some (0xa0 :: c.EmptyTrie.data) ∧
        headerField out 6 = some (0xb9 :: 0x01 :: 0x00 :: List.replicate 256 0)) ∧
      ((blockHeaderPayload out).bind (rlpItems 13)).map (fun xs => (xs.length, xs.flatten.length))
        = some (13, 483) := by
  obtain ⟨inner, after, hsz, hout, _, _⟩ := createGenesisBlock_shape c S hF hsize
  have h32 := fun h : FixedHash 32 => rlpData_short h (by norm_num) (by norm_num)
  have h20 := fun h : FixedHash 20 => rlpData_short h (by norm_num) (by norm_num)
  have hE : (rlpEncodeAll (genericFields c)).length < 2 ^ 64 := by
    rw [genericFields_encode_length]; norm_num
  refine ⟨_, hout, ⟨?_, ?_, ?_, ?_, ?_, ?_⟩, ⟨?_, ?_, ?_, ?_, ?_, minimalBigEndian_head_ne_zero⟩,
    ⟨?_, ?_, ?_, ?_, ?_, ?_, ?_⟩, ?_⟩
  · rw [headerField_data _ _ _ 7 _ rfl hsz, rlpData_minimalBigEndian, rlpInt_one]
  · rw [headerField_data _ _ _ 8 _ rfl hsz, rlpData_minimalBigEndian, rlpInt_zero]
  · rw [headerField_data _ _ _ 9 _ rfl hsz, rlpData_minimalBigEndian, rlpInt_two_pow_255]
  · rw [headerField_data _ _ _ 10 _ rfl hsz, rlpData_minimalBigEndian, rlpInt_zero]
  · rw [headerField_data _ _ _ 11 _ rfl hsz, rlpData_minimalBigEndian, rlpInt_zero]
  · rw [headerField_data _ _ _ 12 _ rfl hsz, rlpData_nil]
  · exact headerFieldData_rlpEncodeAll _ _ _ 7 _ rfl hsz
  · exact headerFieldData_rlpEncodeAll _ _ _ 8 _ rfl hsz
  · exact headerFieldData_rlpEncodeAll _ _ _ 9 _ rfl hsz
  · exact headerFieldData_rlpEncodeAll _ _ _ 10 _ rfl hsz
  · exact headerFieldData_rlpEncodeAll _ _ _ 11 _ rfl hsz
  · rw [headerField_data _ _ _ 0 _ rfl hsz, h32]; rfl
  · rw [headerField_data _ _ _ 1 _ rfl hsz, h32]
  · rw [headerField_data _ _ _ 2 _ rfl hsz, h20]; rfl
  · rw [headerField_data _ _ _ 3 _ rfl hsz, h32]
  · rw [headerField_data _ _ _ 4 _ rfl hsz, h32]
  · rw [headerField_data _ _ _ 5 _ rfl hsz, h32]
  · rw [headerField_data _ _ _ 6 _ rfl hsz, rlpData_bloom]; rfl
  · rw [blockHeaderPayload_rlpList _ _ hsz, Option.some_bind,
      rlpItems_rlpEncodeAll 13 _ _ (by rw [genericFields_length]) hE,
      ← genericFields_length c, List.take_length, Option.map_some', List.length_map,
      ← rlpEncodeAll_eq_flatten, genericFields_encode_length, genericFields_length]

set_option maxRecDepth 100000 in
/-- Witness of C8: the sealer with two seal fields. -/
theorem genesis_fields_minimal_encoding_witness :
    (sampleSealer.Fields = 13 + sampleSealer.SealFields ∧
      sampleSealer.sealFieldsRLP.length + 512 < 2 ^ 64) ∧
    ∃ out, createGenesisBlock sampleConstants sampleSealer = .ok out ∧
      (headerField out 7 = some [0x01] ∧ headerField out 8 = some [0x80] ∧
        headerField out 9 = some (0xa0 :: 0x80 :: List.replicate 31 0) ∧
        headerField out 10 = some [0x80] ∧ headerField out 11 = some [0x80] ∧
        headerField out 12 = some [0x80]) ∧
      ((blockHeaderPayload out).bind (rlpItems 13)).map (fun xs => (xs.length, xs.flatten.length))
        = some (13, 483) :=
  ⟨⟨by decide, by decide⟩,
    match genesis_fields_minimal_encoding sampleConstants sampleSealer (by decide) (by decide) with
    | ⟨out, h0, h1, _, _, h4⟩ => ⟨out, h0, h1, h4⟩⟩

/-- C9 (amended). For every state and every JSON description, after
`setGenesis` the function `isNonStandard()` returns true if and only if one of
the three forced fields is in force (extra data not empty, or difficulty not
zero, or gas limit not zero), and false if and only if all three are at their
defaults: the description that was installed, empty or not, has no part in the
result, which is what it was before the call. -/
theorem isNonStandard_setGenesis (σ : GenesisStatics) (json : String) :
    ((σ.setGenesis json).isNonStandard = true ↔
      (σ.s_genesisExtraData ≠ [] ∨ σ.s_genesisDifficulty ≠ 0 ∨ σ.s_genesisGasLimit ≠ 0)) ∧
    ((σ.setGenesis json).isNonStandard = false ↔
      (σ.s_genesisExtraData = [] ∧ σ.s_genesisDifficulty = 0 ∧ σ.s_genesisGasLimit = 0)) ∧
    (σ.setGenesis json).s_genesisStateJSON = json ∧
    (σ.setGenesis json).s_genesisExtraData = σ.s_genesisExtraData ∧
    (σ.setGenesis json).s_genesisDifficulty = σ.s_genesisDifficulty ∧
    (σ.setGenesis json).s_genesisGasLimit = σ.s_genesisGasLimit ∧
    (σ.setGenesis json).isNonStandard = σ.isNonStandard := by
  refine ⟨?_, ?_, rfl, rfl, rfl, rfl, rfl⟩
  · simp [GenesisStatics.isNonStandard, GenesisStatics.setGenesis, or_assoc]
  · simp [GenesisStatics.isNonStandard, GenesisStatics.setGenesis, and_assoc]

/-- Counterexample to C9 as stated: after `setGenesis` with a non-empty JSON
description and no forced field, `isNonStandard()` is false. -/
theorem isNonStandard_false_with_genesis_json :
    ((GenesisStatics.fresh (FixedHash.zero 8)).setGenesis "\x7b\x7d").s_genesisStateJSON ≠ "" ∧
    ((GenesisStatics.fresh (FixedHash.zero 8)).setGenesis "\x7b\x7d").isNonStandard = false := by
  decide

/-- C10 (amended). Assume `sealFieldsRLP` is the concatenation of the encodings
of exactly `SealFields` items (output within the 64-bit size range). Then the
generic `createGenesisBlock()` returns one single well-formed list, with no
list left open and nothing after it, if and only if `Fields = 13 + SealFields`,
and the list is then the block of header (generic fields and seal items), no
uncles, no transactions. For any other `Fields`: a list is still open at
`out()` when `Fields > 13 + SealFields`; the seal append throws "itemCount too
large" against the header list when `13 < Fields < 13 + SealFields`, and
against the block list when `Fields` is 12 or 13 and `SealFields > Fields - 11`;
in the remaining cases the block list is closed early and `out()` returns a
three-item list followed by trailing bytes. -/
theorem createGenesisBlock_balance (c : HashConstants) (S : Sealer) (its : List RLPItem)
    (hits : its.length = S.SealFields) (hseal : S.sealFieldsRLP = rlpEncodeAll its)
    (hsize : S.sealFieldsRLP.length + 512 < 2 ^ 64) :
    ((∃ ts, createGenesisBlock c S = .ok (rlpEncode (.list ts)))
      ↔ S.Fields = 13 + S.SealFields) ∧
    (S.Fields = 13 + S.SealFields → createGenesisBlock c S
      = .ok (rlpEncode (.list [.list (genericFields c ++ its), .list [], .list []]))) ∧
    (13 + S.SealFields < S.Fields → createGenesisBlock c S = .error .listStackNotEmpty) ∧
    (13 < S.Fields → S.Fields < 13 + S.SealFields →
      createGenesisBlock c S = .error (.itemCountTooLarge (S.Fields - 13) S.SealFields)) ∧
    (12 ≤ S.Fields → S.Fields ≤ 13 → S.Fields - 11 < S.SealFields →
      createGenesisBlock c S = .error (.itemCountTooLarge (S.Fields - 11) S.SealFields)) ∧
    (S.Fields ≤ 11 ∨ (S.Fields = 12 ∧ S.SealFields ≤ 1)
        ∨ (S.Fields = 13 ∧ 1 ≤ S.SealFields ∧ S.SealFields ≤ 2) →
      ∃ ts trailing, ts.length = 3 ∧ trailing ≠ [] ∧
        createGenesisBlock c S = .ok (rlpEncode (.list ts) ++ trailing)) := by
  have hbal : S.Fields = 13 + S.SealFields → createGenesisBlock c S
      = .ok (rlpEncode (.list [.list (genericFields c ++ its), .list [], .list []])) := by
    intro hF
    rw [rlpEncode_list_three, rlpEncode_list_nil, rlpEncode, rlpEncodeAll_append, ← hseal]
    by_cases h0 : 0 < S.SealFields
    · rw [createGenesisBlock_balanced c S hF h0 (by omega), rlpList_nil]
    · have hnil : its = [] := List.length_eq_zero.1 (hits.trans (by omega))
      have hst : S.sealFieldsRLP = [] := by rw [hseal, hnil, rlpEncodeAll]
      rw [createGenesisBlock_no_seal c S (by omega) (by omega) (by omega), rlpList_nil, hst,
        List.append_nil, List.append_nil]
  have hopen := createGenesisBlock_open c S
  have hover := createGenesisBlock_seal_over c S
  have h12 := createGenesisBlock_twelve c S
  have h13 := createGenesisBlock_thirteen c S
  have htr := createGenesisBlock_trailing c S its hits hseal hsize
  refine ⟨⟨?_, fun hF => ⟨_, hbal hF⟩⟩, hbal, fun h => hopen h (by omega),
    fun h1 h2 => hover h1 h2, ?_, ?_⟩
  · rintro ⟨ts, hts⟩
    by_contra hne
    by_cases hgt : 13 + S.SealFields < S.Fields
    · rw [hopen hgt (by omega)] at hts; exact absurd hts (by simp)
    by_cases hmid : 13 < S.Fields
    · rw [hover hmid (by omega)] at hts; exact absurd hts (by simp)
    by_cases hbig : 12 ≤ S.Fields ∧ S.Fields - 11 < S.SealFields
    · by_cases he : S.Fields = 12
      · rw [(h12 he (by omega)).1 (by omega)] at hts; exact absurd hts (by simp)
      · rw [(h13 (by omega) hsize).1 (by omega)] at hts; exact absurd hts (by simp)
    · obtain ⟨ts', tr, _, hnil, hlt, hout⟩ := htr (by omega)
      rw [hout] at hts
      have heq : rlpEncode (.list ts') ++ tr = rlpEncode (.list ts) := by
        injection hts
      exact hnil (rlpEncode_no_trailing _ _ _ heq (by rw [← heq]; exact hlt))
  · intro ha hb hc
    by_cases he : S.Fields = 12
    · have := (h12 he (by omega)).1 (by omega)
      rw [this, he]
    · have := (h13 (by omega) hsize).1 (by omega)
      rw [this, show S.Fields = 13 by omega]
  · intro h
    obtain ⟨ts, tr, h3, hnil, _, hout⟩ := htr h
    exact ⟨ts, tr, h3, hnil, hout⟩

set_option maxRecDepth 100000 in
/-- Witness of C10 (amended): the sealer with two seal fields, a 32-byte and
an 8-byte string. -/
theorem createGenesisBlock_balance_witness :
    ([RLPItem.data (List.replicate 32 0), RLPItem.data (List.replicate 8 0)].length
        = sampleSealer.SealFields ∧
      sampleSealer.sealFieldsRLP
        = rlpEncodeAll [.data (List.replicate 32 0), .data (List.replicate 8 0)] ∧
      sampleSealer.sealFieldsRLP.length + 512 < 2 ^ 64) ∧
    ((∃ ts, createGenesisBlock sampleConstants sampleSealer = .ok (rlpEncode (.list ts)))
      ↔ sampleSealer.Fields = 13 + sampleSealer.SealFields) :=
  ⟨⟨by decide, by decide, by decide⟩,
    (createGenesisBlock_balance sampleConstants sampleSealer
      [.data (List.replicate 32 0), .data (List.replicate 8 0)]
      (by decide) (by decide) (by decide)).1⟩

set_option maxRecDepth 100000 in
/-- Counterexample to C10 as stated: a sealer with two well-formed seal items
whose header declares 14 fields. The call throws "itemCount too large" at the
seal append, so `out()` is not reached, and the list that is too short is the
header list, with one item left; the block list has received no item yet. -/
theorem createGenesisBlock_header_overflow :
    shortHeaderSealer.sealFieldsRLP
      = rlpEncodeAll [.data (List.replicate 32 0), .data (List.replicate 8 0)] ∧
    shortHeaderSealer.Fields ≠ 13 + shortHeaderSealer.SealFields ∧
    createGenesisBlock sampleConstants shortHeaderSealer = .error (.itemCountTooLarge 1 2) ∧
    createGenesisBlock sampleConstants shortHeaderSealer ≠ .error .listStackNotEmpty ∧
    (headerStream sampleConstants shortHeaderSealer).map (fun s => s.m_listStack)
      = .ok [(1, 0), (3, 0)] := by
  decide

end dev
